import Mathlib

/-!
# Falling-block game engine of `script.js`

A shallow embedding of the game-state engine of `src/script.js`
(collision test, rotation with wall kick, placement, row clearing and
scoring, movement, hard drop, spawning) together with theorems about it.

Modelling conventions.

* Cells are natural numbers; `0` is the empty cell (the only falsy cell
  value the program ever stores), a non-zero value is a colour id.
* Piece coordinates and offsets are integers.
* The module-level variables of the script are the fields of `State`.
  Timing (`dropCounter`, `lastTime`, `animationId`), drawing and the DOM
  are left out: timing only decides when `gameLoop` takes a gravity step,
  and that step is the function `gravityTick` here.
* `Math.random` is a parameter: every function that draws a random piece
  type takes the drawn value (an index into `SHAPES`) as an argument.
* Reads and writes of `board` are strict: an access outside the array is
  reported as `Fault.index` (the script would throw a `TypeError`, read
  `undefined` or grow the array there).  Reads of a shape cell outside a
  ragged shape yield `0`, since the script only tests shape cells for
  truthiness and `undefined` is falsy.
* `score` is `none` when the script's `score` is `NaN` (the result of
  indexing `lineScores` outside `0..4`).
* The two unbounded loops (`clearLines`, `hardDrop`) take a fuel argument
  and report `Fault.fuel` when it runs out.
-/

namespace Tetris

/-- Number of columns, `const COLS = 10`. -/
def COLS : Nat := 10

/-- Number of rows, `const ROWS = 20`. -/
def ROWS : Nat := 20

/-- A shape is a matrix of cells, given as the list of its rows. -/
abbrev Shape := List (List Nat)

/-- The board is the list of its rows, top row first. -/
abbrev Board := List (List Nat)

/-- The tetromino catalog, `const SHAPES`. -/
def SHAPES : List Shape :=
  [ [[0, 0, 0, 0],
     [1, 1, 1, 1],
     [0, 0, 0, 0],
     [0, 0, 0, 0]],
    [[2, 2],
     [2, 2]],
    [[0, 3, 0],
     [3, 3, 3],
     [0, 0, 0]],
    [[0, 4, 4],
     [4, 4, 0],
     [0, 0, 0]],
    [[5, 5, 0],
     [0, 5, 5],
     [0, 0, 0]],
    [[6, 0, 0],
     [6, 6, 6],
     [0, 0, 0]],
    [[0, 0, 7],
     [7, 7, 7],
     [0, 0, 0]] ]

/-- Ways in which a run of the model can fail to produce a value. -/
inductive Fault where
  /-- An array is indexed outside its bounds. -/
  | index
  /-- A property of `null` or `undefined` is read (`currentPiece` is `null`, or a shape has
  no first row). -/
  | null
  /-- A loop did not finish within the fuel given. -/
  | fuel
deriving DecidableEq

deriving instance DecidableEq for Except

/-- A live piece: `{ shape, x, y, type }`. -/
structure Piece where
  shape : Shape
  x : Int
  y : Int
  type : Nat
deriving DecidableEq

/-- The board `Array(ROWS).fill(null).map(() => Array(COLS).fill(0))` of `initBoard`. -/
def initBoard : Board := List.replicate ROWS (List.replicate COLS 0)

/-- The piece built by `createPiece(type)`: catalog shape `type`, centred, at the top.
The argument is an index into `SHAPES`, as `getRandomPiece()` returns one; every catalog shape
has a first row, whose length is `shape[0].length`. -/
def createPiece (type : Fin SHAPES.length) : Piece :=
  let shape := SHAPES.get type
  { shape := shape
    x := ((COLS / 2 : Nat) : Int) - (((shape.headD []).length / 2 : Nat) : Int)
    y := 0
    type := type.val + 1 }

/-- The read `board[row][col]`; an index outside the board is a fault. -/
def readCell (board : Board) (row col : Int) : Except Fault Nat :=
  if row < 0 ∨ col < 0 then .error .index
  else
    match board[row.toNat]? with
    | none => .error .index
    | some r =>
      match r[col.toNat]? with
      | none => .error .index
      | some v => .ok v

/-- The write `board[row][col] = v`; an index outside the board is a fault. -/
def writeCell (board : Board) (row col : Int) (v : Nat) : Except Fault Board :=
  if row < 0 ∨ col < 0 then .error .index
  else
    match board[row.toNat]? with
    | none => .error .index
    | some r =>
      if col.toNat < r.length then .ok (board.set row.toNat (r.set col.toNat v))
      else .error .index

/-- Inner loop of `collide`: the cells of shape row `y` from column `x` on. -/
def collideRow (board : Board) (piece : Piece) (dx dy : Int) (y : Nat) :
    List Nat → Nat → Except Fault Bool
  | [], _ => .ok false
  | cell :: rest, x =>
    if cell ≠ 0 then
      let newX := piece.x + x + dx
      let newY := piece.y + y + dy
      if newX < 0 ∨ newX ≥ COLS ∨ newY ≥ ROWS then .ok true
      else if newY ≥ 0 then
        match readCell board newY newX with
        | .error e => .error e
        | .ok v => if v ≠ 0 then .ok true else collideRow board piece dx dy y rest (x + 1)
      else collideRow board piece dx dy y rest (x + 1)
    else collideRow board piece dx dy y rest (x + 1)

/-- Outer loop of `collide`: the rows of the shape from row `y` on. -/
def collideRows (board : Board) (piece : Piece) (dx dy : Int) :
    List (List Nat) → Nat → Except Fault Bool
  | [], _ => .ok false
  | row :: rest, y =>
    match collideRow board piece dx dy y row 0 with
    | .error e => .error e
    | .ok true => .ok true
    | .ok false => collideRows board piece dx dy rest (y + 1)

/-- The function `collide(board, piece, dx, dy)`. -/
def collide (board : Board) (piece : Piece) (dx dy : Int) : Except Fault Bool :=
  collideRows board piece dx dy piece.shape 0

/-- The rows `i ↦ shape.map(row => row[i]).reverse()` for `i` below `n`. -/
def turned (shape : Shape) (n : Nat) : Shape :=
  (List.range n).map fun i => (shape.map fun row => row.getD i 0).reverse

/-- The matrix `shape[0].map((_, i) => shape.map(row => row[i]).reverse())`:
the shape turned by 90 degrees clockwise.  A shape without rows has no `shape[0]`. -/
def rotateShape (shape : Shape) : Except Fault Shape :=
  match shape with
  | [] => .error .null
  | row0 :: _ => .ok (turned shape row0.length)

/-- The function `rotatePiece(piece)`, with the global `board` as a parameter. -/
def rotatePiece (board : Board) (piece : Piece) : Except Fault Piece :=
  match rotateShape piece.shape with
  | .error e => .error e
  | .ok rotated =>
    let rotatedPiece : Piece := { piece with shape := rotated }
    match collide board rotatedPiece 0 0 with
    | .error e => .error e
    | .ok false => .ok rotatedPiece
    | .ok true =>
      -- try moving left
      let rotatedPiece : Piece := { rotatedPiece with x := rotatedPiece.x - 1 }
      match collide board rotatedPiece 0 0 with
      | .error e => .error e
      | .ok false => .ok rotatedPiece
      | .ok true =>
        -- try moving right
        let rotatedPiece : Piece := { rotatedPiece with x := rotatedPiece.x + 2 }
        match collide board rotatedPiece 0 0 with
        | .error e => .error e
        | .ok false => .ok rotatedPiece
        | .ok true =>
          -- try moving up
          let rotatedPiece : Piece :=
            { rotatedPiece with x := rotatedPiece.x - 1, y := rotatedPiece.y - 1 }
          match collide board rotatedPiece 0 0 with
          | .error e => .error e
          | .ok false => .ok rotatedPiece
          | .ok true => .ok piece

/-- The module-level game state of the script. -/
structure State where
  board : Board
  currentPiece : Option Piece
  nextPiece : Option Piece
  score : Option Nat
  level : Nat
  lines : Nat
  dropInterval : Int
  gameRunning : Bool
  gamePaused : Bool
deriving DecidableEq

/-- Inner loop of `placePiece`: the cells of shape row `y` from column `x` on. -/
def placeRow (piece : Piece) (y : Nat) : List Nat → Nat → Board → Except Fault Board
  | [], _, board => .ok board
  | cell :: rest, x, board =>
    if cell ≠ 0 then
      let boardY := piece.y + y
      let boardX := piece.x + x
      if boardY ≥ 0 then
        match writeCell board boardY boardX piece.type with
        | .error e => .error e
        | .ok board1 => placeRow piece y rest (x + 1) board1
      else placeRow piece y rest (x + 1) board
    else placeRow piece y rest (x + 1) board

/-- Outer loop of `placePiece`: the rows of the shape from row `y` on. -/
def placeRows (piece : Piece) : List (List Nat) → Nat → Board → Except Fault Board
  | [], _, board => .ok board
  | row :: rest, y, board =>
    match placeRow piece y row 0 board with
    | .error e => .error e
    | .ok board1 => placeRows piece rest (y + 1) board1

/-- The function `placePiece()`: the current piece is written into the board. -/
def placePiece (s : State) : Except Fault State :=
  match s.currentPiece with
  | none => .error .null
  | some piece =>
    match placeRows piece piece.shape 0 s.board with
    | .error e => .error e
    | .ok board => .ok { s with board := board }

/-- The test `row.every(cell => cell !== 0)`. -/
def isFull (row : List Nat) : Bool := row.all fun cell => cell != 0

/-- The `for` loop of `clearLines`, from row index `y` downwards, with the number of
rows cleared so far.  It returns the board and the count when `y` falls below `0`. -/
def clearLoop : Nat → Board → Int → Nat → Except Fault (Board × Nat)
  | 0, _, _, _ => .error .fuel
  | fuel + 1, board, y, linesCleared =>
    if y ≥ 0 then
      match board[y.toNat]? with
      | none => .error .index
      | some row =>
        if isFull row then
          -- board.splice(y, 1); board.unshift(Array(COLS).fill(0)); linesCleared++; y++
          clearLoop fuel (List.replicate COLS 0 :: board.eraseIdx y.toNat) (y + 1 - 1)
            (linesCleared + 1)
        else clearLoop fuel board (y - 1) linesCleared
    else .ok (board, linesCleared)

/-- The table `const lineScores = [0, 100, 300, 500, 800]`. -/
def lineScores : List Nat := [0, 100, 300, 500, 800]

/-- The second half of `clearLines()`: the update of `lines`, `score`, `level` and
`dropInterval` once the loop has left `board` with `linesCleared` rows cleared. -/
def updateProgress (s : State) (board : Board) (linesCleared : Nat) : State :=
  if linesCleared > 0 then
    let lines := s.lines + linesCleared
    let score :=
      match lineScores[linesCleared]? with
      | some points => s.score.map fun sc => sc + points * s.level
      | none => none
    let newLevel := lines / 10 + 1
    if newLevel > s.level then
      { s with
        board := board, lines := lines, score := score, level := newLevel,
        dropInterval := max 100 (1000 - ((newLevel : Int) - 1) * 50) }
    else { s with board := board, lines := lines, score := score }
  else { s with board := board }

/-- The function `clearLines()`. -/
def clearLines (fuel : Nat) (s : State) : Except Fault State :=
  match clearLoop fuel s.board ((ROWS : Int) - 1) 0 with
  | .error e => .error e
  | .ok (board, linesCleared) => .ok (updateProgress s board linesCleared)

/-- The function `movePiece(dx, dy)`; the second component is its return value
(`none` for `undefined`). -/
def movePiece (s : State) (dx dy : Int) : Except Fault (State × Option Bool) :=
  match s.currentPiece with
  | none => .ok (s, none)
  | some piece =>
    if !s.gameRunning || s.gamePaused then .ok (s, none)
    else
      match collide s.board piece dx dy with
      | .error e => .error e
      | .ok false =>
        .ok ({ s with currentPiece := some { piece with x := piece.x + dx, y := piece.y + dy } },
          some true)
      | .ok true => .ok (s, some false)

/-- The function `gameOver()`. -/
def gameOver (s : State) : State :=
  { s with gameRunning := false, gamePaused := false }

/-- The function `spawnPiece()`; `r1` is the random type drawn for the current piece
when there is no next piece, `r2` the one drawn for the new next piece. -/
def spawnPiece (s : State) (r1 r2 : Fin SHAPES.length) : Except Fault State :=
  let current : Piece :=
    match s.nextPiece with
    | some piece => piece
    | none => createPiece r1
  let s1 : State := { s with currentPiece := some current, nextPiece := some (createPiece r2) }
  match collide s1.board current 0 0 with
  | .error e => .error e
  | .ok true => .ok (gameOver s1)
  | .ok false => .ok s1

/-- The loop `while (movePiece(0, 1)) dropDistance++` of `hardDrop`. -/
def dropLoop : Nat → State → Nat → Except Fault (State × Nat)
  | 0, _, _ => .error .fuel
  | fuel + 1, s, dropDistance =>
    match movePiece s 0 1 with
    | .error e => .error e
    | .ok (s1, some true) => dropLoop fuel s1 (dropDistance + 1)
    | .ok (s1, _) => .ok (s1, dropDistance)

/-- The sequence `placePiece(); clearLines(); spawnPiece();` that locks the current piece. -/
def lockPiece (fuel : Nat) (s : State) (r1 r2 : Fin SHAPES.length) : Except Fault State :=
  match placePiece s with
  | .error e => .error e
  | .ok s1 =>
    match clearLines fuel s1 with
    | .error e => .error e
    | .ok s2 => spawnPiece s2 r1 r2

/-- The function `hardDrop()`. -/
def hardDrop (fuel : Nat) (s : State) (r1 r2 : Fin SHAPES.length) : Except Fault State :=
  if s.currentPiece.isNone || !s.gameRunning || s.gamePaused then .ok s
  else
    match dropLoop fuel s 0 with
    | .error e => .error e
    | .ok (s1, dropDistance) =>
      lockPiece fuel { s1 with score := s1.score.map fun sc => sc + dropDistance * 2 } r1 r2

/-- The gravity step of `gameLoop`, taken when `dropCounter > dropInterval`. -/
def gravityTick (fuel : Nat) (s : State) (r1 r2 : Fin SHAPES.length) : Except Fault State :=
  if !s.gameRunning then .ok s
  else
    match movePiece s 0 1 with
    | .error e => .error e
    | .ok (s1, some true) => .ok s1
    | .ok (s1, _) => lockPiece fuel s1 r1 r2

/-- The function `startGame()`; `r1` is the type drawn for the first next piece, `r2`
and `r3` are the values handed to `spawnPiece`. -/
def startGame (s : State) (r1 r2 r3 : Fin SHAPES.length) : Except Fault State :=
  spawnPiece
    { s with
      board := initBoard, score := some 0, level := 1, lines := 0, dropInterval := 1000,
      gameRunning := true, gamePaused := false, nextPiece := some (createPiece r1) }
    r2 r3

/-- The function `pauseGame()`. -/
def pauseGame (s : State) : State :=
  if !s.gameRunning then s else { s with gamePaused := !s.gamePaused }

/-- The soft drop of `handleKeyAction('ArrowDown')`: one step down, one point if it succeeds. -/
def softDrop (s : State) : Except Fault State :=
  if !s.gameRunning || s.gamePaused then .ok s
  else
    match movePiece s 0 1 with
    | .error e => .error e
    | .ok (s1, some true) => .ok { s1 with score := s1.score.map fun sc => sc + 1 }
    | .ok (s1, _) => .ok s1

/-- The rotation of `handleKeyAction('ArrowUp')`: `currentPiece = rotatePiece(currentPiece)`.
(The touch handler does nothing when `currentPiece` is `null`, where this one faults.) -/
def rotateCurrent (s : State) : Except Fault State :=
  if !s.gameRunning || s.gamePaused then .ok s
  else
    match s.currentPiece with
    | none => .error .null
    | some piece =>
      match rotatePiece s.board piece with
      | .error e => .error e
      | .ok piece1 => .ok { s with currentPiece := some piece1 }

/-- The intents and events that change the game state. -/
inductive Action where
  | moveLeft
  | moveRight
  | softDrop
  | rotate
  | hardDrop (r1 r2 : Fin SHAPES.length)
  | tick (r1 r2 : Fin SHAPES.length)
  | pause
  | start (r1 r2 r3 : Fin SHAPES.length)

/-- One action applied to a state. -/
def step (fuel : Nat) (s : State) : Action → Except Fault State
  | .moveLeft =>
    if !s.gameRunning || s.gamePaused then .ok s
    else
      match movePiece s (-1) 0 with
      | .error e => .error e
      | .ok (s1, _) => .ok s1
  | .moveRight =>
    if !s.gameRunning || s.gamePaused then .ok s
    else
      match movePiece s 1 0 with
      | .error e => .error e
      | .ok (s1, _) => .ok s1
  | .softDrop => softDrop s
  | .rotate => rotateCurrent s
  | .hardDrop r1 r2 => if !s.gameRunning || s.gamePaused then .ok s else hardDrop fuel s r1 r2
  | .tick r1 r2 => gravityTick fuel s r1 r2
  | .pause => .ok (pauseGame s)
  | .start r1 r2 r3 => startGame s r1 r2 r3

/-- The states reachable from `startGame` by any sequence of actions. -/
inductive Reachable : State → Prop where
  | start (s0 s : State) (r1 r2 r3 : Fin SHAPES.length) :
      startGame s0 r1 r2 r3 = .ok s → Reachable s
  | step (s s1 : State) (a : Action) (fuel : Nat) :
      Reachable s → step fuel s a = .ok s1 → Reachable s1

/-! ## Vocabulary of the statements -/

/-- A board of `ROWS` rows of `COLS` cells each. -/
def BoardWF (board : Board) : Prop :=
  board.length = ROWS ∧ ∀ row ∈ board, row.length = COLS

instance (board : Board) : Decidable (BoardWF board) := by
  unfold BoardWF; infer_instance

/-- The cell of the board at column `cx`, row `cy` blocks a piece cell: the column
is outside `[0, COLS)`, or the row is `≥ ROWS`, or the row is `≥ 0` and the board
cell there is non-empty. -/
def Blocked (board : Board) (cx cy : Int) : Prop :=
  cx < 0 ∨ cx ≥ COLS ∨ cy ≥ ROWS ∨
    (cy ≥ 0 ∧ ∃ row v, board[cy.toNat]? = some row ∧ row[cx.toNat]? = some v ∧ v ≠ 0)

/-- Some occupied cell `(x, y)` of the piece's shape is blocked after the offset `(dx, dy)`. -/
def SomeCellBlocked (board : Board) (piece : Piece) (dx dy : Int) : Prop :=
  ∃ (y x : Nat) (row : List Nat) (v : Nat),
    piece.shape[y]? = some row ∧ row[x]? = some v ∧ v ≠ 0 ∧
      Blocked board (piece.x + x + dx) (piece.y + y + dy)

/-- The cell `shape[y][x]`, read as `0` when it is `undefined`. -/
def cellAt (shape : Shape) (y x : Nat) : Nat := (shape.getD y []).getD x 0

/-- An `n × n` matrix. -/
def IsSquare (shape : Shape) (n : Nat) : Prop :=
  shape.length = n ∧ ∀ row ∈ shape, row.length = n

instance (shape : Shape) (n : Nat) : Decidable (IsSquare shape n) := by
  unfold IsSquare; infer_instance

/-- The piece does not collide with the board where it stands. -/
def fits (board : Board) (piece : Piece) : Bool :=
  match collide board piece 0 0 with
  | .ok false => true
  | _ => false

/-- The placements of the rotated shape at the given offsets from the piece's origin. -/
def candidates (piece : Piece) (rotated : Shape) (offsets : List (Int × Int)) : List Piece :=
  offsets.map fun o =>
    ({ piece with shape := rotated, x := piece.x + o.1, y := piece.y + o.2 } : Piece)

/-- The first candidate that does not collide, or the piece itself when all of them do. -/
def firstFit (board : Board) (piece : Piece) (rotated : Shape) (offsets : List (Int × Int)) :
    Piece :=
  ((candidates piece rotated offsets).find? (fits board)).getD piece

/-- The kick offsets tried by `rotatePiece`, in order: none, left, right, up. -/
def kickOffsets : List (Int × Int) := [(0, 0), (-1, 0), (1, 0), (0, -1)]

/-- The kick offsets as the specification lists them: none, left, right, up-left. -/
def specKickOffsets : List (Int × Int) := [(0, 0), (-1, 0), (1, 0), (-1, -1)]

/-- The rotation of the piece is rejected: every kick candidate collides. -/
def Rejected (board : Board) (piece : Piece) : Prop :=
  ∃ rotated, rotateShape piece.shape = .ok rotated ∧
    ∀ c ∈ candidates piece rotated kickOffsets, fits board c = false

/-- A board with a well one cell wide in column 5, four rows deep. -/
def kickBoard : Board :=
  List.replicate 16 (List.replicate COLS 0) ++ List.replicate 4 [0, 0, 0, 0, 1, 0, 1, 0, 0, 0]

/-- An upright I piece standing in column 5 with its lower half in the well of `kickBoard`. -/
def kickPiece : Piece :=
  { shape := [[0, 0, 1, 0], [0, 0, 1, 0], [0, 0, 1, 0], [0, 0, 1, 0]], x := 3, y := 14, type := 1 }

/-- A board whose rows 17 and 19 are full, with a partly filled row between them. -/
def twoFullBoard : Board :=
  List.replicate 17 (List.replicate COLS 0) ++
    [List.replicate COLS 3, [0, 5, 5, 0, 0, 0, 0, 0, 0, 1], List.replicate COLS 1]

/-- A state with nothing on the board and no game running. -/
def idleState : State :=
  { board := initBoard, currentPiece := none, nextPiece := none, score := some 0, level := 1,
    lines := 0, dropInterval := 1000, gameRunning := false, gamePaused := false }

/-- The number of occupied cells of a shape. -/
def occupiedCount (shape : Shape) : Nat :=
  (shape.map fun row => row.countP fun cell => cell != 0).sum

/-- The catalog shapes in their four orientations. -/
def orientations : List Shape :=
  SHAPES.flatMap fun s =>
    [s, turned s s.length, turned (turned s s.length) s.length,
      turned (turned (turned s s.length) s.length) s.length]

/-- The part of the state invariant that does not mention the current piece: the board is
`ROWS × COLS` without a full row, the score is a number, the next piece is a fresh catalog
piece, and level and drop interval follow from the line count. -/
structure Base (s : State) : Prop where
  wf : BoardWF s.board
  noFull : s.board.countP isFull = 0
  score : ∃ n, s.score = some n
  next : ∃ t, s.nextPiece = some (createPiece t)
  level : s.level = s.lines / 10 + 1
  interval : s.dropInterval = max 100 (1000 - ((s.level : Int) - 1) * 50)

/-- The state invariant: `Base`, the current piece is a catalog shape in one of its
orientations, and while the game runs it does not collide with the board. -/
structure Inv (s : State) : Prop where
  base : Base s
  cur : ∃ p, s.currentPiece = some p ∧ p.shape ∈ orientations
  free : s.gameRunning = true → ∀ p, s.currentPiece = some p → collide s.board p 0 0 = .ok false

/-- The state right after `startGame` when the O piece is drawn first and the I piece next. -/
def startedState : State :=
  { board := initBoard, currentPiece := some (createPiece ⟨1, by decide⟩),
    nextPiece := some (createPiece ⟨0, by decide⟩), score := some 0, level := 1, lines := 0,
    dropInterval := 1000, gameRunning := true, gamePaused := false }

/-- The piece has an occupied cell that lands on row `r`, column `c` of the board. -/
def Covers (piece : Piece) (r c : Nat) : Prop :=
  ∃ (y x : Nat) (row : List Nat) (v : Nat),
    piece.shape[y]? = some row ∧ row[x]? = some v ∧ v ≠ 0 ∧
      piece.y + y = r ∧ piece.x + x = c

/-- The O piece as `createPiece` builds it. -/
def pieceO : Piece := createPiece ⟨1, by decide⟩

/-- A running game on the empty board with the O piece at its spawn origin and a next piece
of type `t`. -/
def scenarioStart (t : Fin SHAPES.length) : State :=
  { board := initBoard, currentPiece := some pieceO, nextPiece := some (createPiece t),
    score := some 0, level := 1, lines := 0, dropInterval := 1000, gameRunning := true,
    gamePaused := false }

/-- The calls `movePiece(-1, 0)` three times, then `hardDrop()`, from `scenarioStart`. -/
def scenario (fuel : Nat) (t r1 r2 : Fin SHAPES.length) : Except Fault State :=
  match movePiece (scenarioStart t) (-1) 0 with
  | .error e => .error e
  | .ok (s1, _) =>
    match movePiece s1 (-1) 0 with
    | .error e => .error e
    | .ok (s2, _) =>
      match movePiece s2 (-1) 0 with
      | .error e => .error e
      | .ok (s3, _) => hardDrop fuel s3 r1 r2

/-- The empty board with an O piece locked on the bottom two rows in columns 1 and 2. -/
def scenarioBoard : Board :=
  List.replicate 18 (List.replicate COLS 0) ++
    [[0, 2, 2, 0, 0, 0, 0, 0, 0, 0], [0, 2, 2, 0, 0, 0, 0, 0, 0, 0]]

/-- The origin column `x` is the smallest at which the piece does not collide. -/
def IsLeftmostValid (board : Board) (piece : Piece) (x : Int) : Prop :=
  collide board { piece with x := x } 0 0 = .ok false ∧
    ∀ x1 : Int, x1 < x → collide board { piece with x := x1 } 0 0 ≠ .ok false

/-! ## Collision -/

theorem row_of_wf {board : Board} (hwf : BoardWF board) {r : Nat} (hr : r < ROWS) :
    ∃ row, board[r]? = some row ∧ row.length = COLS := by
  obtain ⟨hlen, hrows⟩ := hwf
  have hr' : r < board.length := by omega
  exact ⟨board[r], List.getElem?_eq_getElem hr', hrows _ (List.getElem_mem _)⟩

theorem readCell_of_wf {board : Board} (hwf : BoardWF board) {r c : Int}
    (hr0 : 0 ≤ r) (hr : r < ROWS) (hc0 : 0 ≤ c) (hc : c < COLS) :
    ∃ row v, board[r.toNat]? = some row ∧ row[c.toNat]? = some v ∧
      readCell board r c = .ok v := by
  obtain ⟨row, hrow, hlen⟩ := row_of_wf hwf (r := r.toNat) (by omega)
  have hc' : c.toNat < row.length := by omega
  refine ⟨row, row[c.toNat], hrow, List.getElem?_eq_getElem hc', ?_⟩
  have hneg : ¬ (r < 0 ∨ c < 0) := by omega
  simp [readCell, hneg, hrow, List.getElem?_eq_getElem hc']

theorem blocked_iff_of_inside {board : Board} (hwf : BoardWF board) {cx cy : Int}
    (hx0 : 0 ≤ cx) (hx1 : cx < COLS) (hy0 : 0 ≤ cy) (hy1 : cy < ROWS) :
    ∃ v, readCell board cy cx = .ok v ∧ (Blocked board cx cy ↔ v ≠ 0) := by
  obtain ⟨row, v, h1, h2, h3⟩ := readCell_of_wf hwf hy0 hy1 hx0 hx1
  refine ⟨v, h3, ?_⟩
  constructor
  · rintro (h | h | h | ⟨_, row', v', h1', h2', hv⟩)
    · omega
    · omega
    · omega
    · rw [h1] at h1'
      cases h1'
      rw [h2] at h2'
      cases h2'
      exact hv
  · intro hv
    exact Or.inr (Or.inr (Or.inr ⟨by omega, row, v, h1, h2, hv⟩))

theorem collideRow_spec {board : Board} (hwf : BoardWF board) (piece : Piece) (dx dy : Int)
    (y : Nat) (cells : List Nat) (x0 : Nat) :
    ∃ b, collideRow board piece dx dy y cells x0 = .ok b ∧
      (b = true ↔ ∃ (i : Nat) (v : Nat), cells[i]? = some v ∧ v ≠ 0 ∧
        Blocked board (piece.x + ((x0 + i : Nat) : Int) + dx) (piece.y + y + dy)) := by
  induction cells generalizing x0 with
  | nil => exact ⟨false, rfl, by simp⟩
  | cons cell rest ih =>
    obtain ⟨b, hb, hiff⟩ := ih (x0 + 1)
    have shift : (∃ (i : Nat) (v : Nat), rest[i]? = some v ∧ v ≠ 0 ∧
        Blocked board (piece.x + ((x0 + 1 + i : Nat) : Int) + dx) (piece.y + y + dy)) →
        ∃ (i : Nat) (v : Nat), (cell :: rest)[i]? = some v ∧ v ≠ 0 ∧
        Blocked board (piece.x + ((x0 + i : Nat) : Int) + dx) (piece.y + y + dy) := by
      rintro ⟨i, v, h1, h2, h3⟩
      refine ⟨i + 1, v, by simpa using h1, h2, ?_⟩
      have : x0 + (i + 1) = x0 + 1 + i := by omega
      rw [this]
      exact h3
    have unshift : ∀ (i : Nat) (v : Nat), (cell :: rest)[i]? = some v → v ≠ 0 →
        Blocked board (piece.x + ((x0 + i : Nat) : Int) + dx) (piece.y + y + dy) →
        i ≠ 0 →
        ∃ (i : Nat) (v : Nat), rest[i]? = some v ∧ v ≠ 0 ∧
        Blocked board (piece.x + ((x0 + 1 + i : Nat) : Int) + dx) (piece.y + y + dy) := by
      intro i v h1 h2 h3 hi
      obtain ⟨j, rfl⟩ := Nat.exists_eq_succ_of_ne_zero hi
      refine ⟨j, v, by simpa using h1, h2, ?_⟩
      have : x0 + 1 + j = x0 + (j + 1) := by omega
      rw [this]
      exact h3
    -- the remaining cells decide the result
    have rest_case : (¬ (cell ≠ 0 ∧
        Blocked board (piece.x + ((x0 : Nat) : Int) + dx) (piece.y + y + dy))) →
        (b = true ↔ ∃ (i : Nat) (v : Nat), (cell :: rest)[i]? = some v ∧ v ≠ 0 ∧
          Blocked board (piece.x + ((x0 + i : Nat) : Int) + dx) (piece.y + y + dy)) := by
      intro hno
      rw [hiff]
      constructor
      · exact shift
      · rintro ⟨i, v, h1, h2, h3⟩
        by_cases hi : i = 0
        · subst hi
          simp at h1
          subst h1
          exact absurd ⟨h2, by simpa using h3⟩ hno
        · exact unshift i v h1 h2 h3 hi
    have here_case : cell ≠ 0 →
        Blocked board (piece.x + ((x0 : Nat) : Int) + dx) (piece.y + y + dy) →
        ∃ (i : Nat) (v : Nat), (cell :: rest)[i]? = some v ∧ v ≠ 0 ∧
          Blocked board (piece.x + ((x0 + i : Nat) : Int) + dx) (piece.y + y + dy) := by
      intro hc hbl
      exact ⟨0, cell, by simp, hc, by simpa using hbl⟩
    unfold collideRow
    by_cases hcell : cell ≠ 0
    · rw [if_pos hcell]
      simp only []
      by_cases hout : piece.x + (x0 : Int) + dx < 0 ∨ piece.x + (x0 : Int) + dx ≥ COLS ∨
          piece.y + (y : Int) + dy ≥ ROWS
      · rw [if_pos hout]
        refine ⟨true, rfl, ?_⟩
        simp only [true_iff]
        apply here_case hcell
        rcases hout with h | h | h
        · exact Or.inl h
        · exact Or.inr (Or.inl h)
        · exact Or.inr (Or.inr (Or.inl h))
      · rw [if_neg hout]
        have hx0 : 0 ≤ piece.x + (x0 : Int) + dx := by
          by_contra h; exact hout (Or.inl (by omega))
        have hx1 : piece.x + (x0 : Int) + dx < COLS := by
          by_contra h; exact hout (Or.inr (Or.inl (by omega)))
        have hy1 : piece.y + (y : Int) + dy < ROWS := by
          by_contra h; exact hout (Or.inr (Or.inr (by omega)))
        by_cases hy0 : piece.y + (y : Int) + dy ≥ 0
        · rw [if_pos hy0]
          obtain ⟨v, hv, hbl⟩ := blocked_iff_of_inside hwf hx0 hx1 hy0 hy1
          rw [hv]
          simp only []
          by_cases hv0 : v ≠ 0
          · rw [if_pos hv0]
            refine ⟨true, rfl, ?_⟩
            simp only [true_iff]
            exact here_case hcell (hbl.mpr hv0)
          · rw [if_neg hv0]
            refine ⟨b, hb, rest_case ?_⟩
            rintro ⟨_, h⟩
            exact hv0 (hbl.mp h)
        · rw [if_neg hy0]
          refine ⟨b, hb, rest_case ?_⟩
          rintro ⟨_, h | h | h | ⟨h, _⟩⟩
          · omega
          · omega
          · omega
          · exact hy0 h
    · rw [if_neg hcell]
      exact ⟨b, hb, rest_case (fun h => hcell h.1)⟩

theorem collideRows_spec {board : Board} (hwf : BoardWF board) (piece : Piece) (dx dy : Int)
    (rows : List (List Nat)) (y0 : Nat) :
    ∃ b, collideRows board piece dx dy rows y0 = .ok b ∧
      (b = true ↔ ∃ (j i : Nat) (row : List Nat) (v : Nat),
        rows[j]? = some row ∧ row[i]? = some v ∧ v ≠ 0 ∧
        Blocked board (piece.x + (i : Int) + dx) (piece.y + ((y0 + j : Nat) : Int) + dy)) := by
  induction rows generalizing y0 with
  | nil => exact ⟨false, rfl, by simp⟩
  | cons row rest ih =>
    obtain ⟨b, hb, hiff⟩ := ih (y0 + 1)
    obtain ⟨c, hc, hciff⟩ := collideRow_spec hwf piece dx dy y0 row 0
    unfold collideRows
    rw [hc]
    cases c with
    | true =>
      refine ⟨true, rfl, ?_⟩
      simp only [true_iff]
      obtain ⟨i, v, h1, h2, h3⟩ := hciff.mp rfl
      exact ⟨0, i, row, v, by simp, h1, h2, by simpa using h3⟩
    | false =>
      refine ⟨b, hb, ?_⟩
      rw [hiff]
      constructor
      · rintro ⟨j, i, r, v, h1, h2, h3, h4⟩
        refine ⟨j + 1, i, r, v, by simpa using h1, h2, h3, ?_⟩
        have : y0 + (j + 1) = y0 + 1 + j := by omega
        rw [this]
        exact h4
      · rintro ⟨j, i, r, v, h1, h2, h3, h4⟩
        by_cases hj : j = 0
        · subst hj
          simp at h1
          subst h1
          have : false = true := hciff.mpr ⟨i, v, h2, h3, by simpa using h4⟩
          exact absurd this (by decide)
        · obtain ⟨k, rfl⟩ := Nat.exists_eq_succ_of_ne_zero hj
          refine ⟨k, i, r, v, by simpa using h1, h2, h3, ?_⟩
          have : y0 + 1 + k = y0 + (k + 1) := by omega
          rw [this]
          exact h4

/-- On a well-formed board `collide` returns a Boolean, and it is `true` exactly when
some occupied cell of the piece is blocked. -/
theorem collide_spec {board : Board} (hwf : BoardWF board) (piece : Piece) (dx dy : Int) :
    ∃ b, collide board piece dx dy = .ok b ∧ (b = true ↔ SomeCellBlocked board piece dx dy) := by
  obtain ⟨b, hb, hiff⟩ := collideRows_spec hwf piece dx dy piece.shape 0
  refine ⟨b, hb, ?_⟩
  rw [hiff]
  unfold SomeCellBlocked
  constructor
  · rintro ⟨j, i, r, v, h1, h2, h3, h4⟩
    exact ⟨j, i, r, v, h1, h2, h3, by simpa using h4⟩
  · rintro ⟨j, i, r, v, h1, h2, h3, h4⟩
    exact ⟨j, i, r, v, h1, h2, h3, by simpa using h4⟩

theorem collide_false_iff {board : Board} (hwf : BoardWF board) (piece : Piece) (dx dy : Int) :
    collide board piece dx dy = .ok false ↔ ¬ SomeCellBlocked board piece dx dy := by
  obtain ⟨b, hb, hiff⟩ := collide_spec hwf piece dx dy
  rw [hb]
  cases b with
  | true => simp [hiff.mp rfl]
  | false =>
    simp only [true_iff]
    intro h
    exact absurd (hiff.mpr h) (by decide)

theorem collide_true_iff {board : Board} (hwf : BoardWF board) (piece : Piece) (dx dy : Int) :
    collide board piece dx dy = .ok true ↔ SomeCellBlocked board piece dx dy := by
  obtain ⟨b, hb, hiff⟩ := collide_spec hwf piece dx dy
  rw [hb]
  cases b with
  | true => simp [hiff.mp rfl]
  | false =>
    constructor
    · intro h; cases h
    · intro h
      exact absurd (hiff.mpr h) (by decide)

theorem collide_ok_of_wf {board : Board} (hwf : BoardWF board) (piece : Piece) (dx dy : Int) :
    collide board piece dx dy = .ok true ∨ collide board piece dx dy = .ok false := by
  obtain ⟨b, hb, _⟩ := collide_spec hwf piece dx dy
  cases b with
  | true => exact Or.inl hb
  | false => exact Or.inr hb

/-- C1: on every `ROWS × COLS` board, for every piece and all integer offsets, `collide`
returns a Boolean and never indexes the board out of range; the Boolean is `true` exactly
when some occupied cell of the shape lands on a column outside `[0, COLS)`, or on a row
`≥ ROWS`, or on a row `≥ 0` whose board cell is non-empty.  When every occupied cell lands
on a negative row, the horizontal bounds alone decide. -/
theorem collide_iff_some_cell_blocked (board : Board) (hwf : BoardWF board) (piece : Piece)
    (dx dy : Int) :
    ∃ b, collide board piece dx dy = .ok b ∧
      (b = true ↔ SomeCellBlocked board piece dx dy) ∧
      ((∀ (y x : Nat) (row : List Nat) (v : Nat), piece.shape[y]? = some row →
          row[x]? = some v → v ≠ 0 → piece.y + y + dy < 0) →
        (b = true ↔ ∃ (y x : Nat) (row : List Nat) (v : Nat), piece.shape[y]? = some row ∧
          row[x]? = some v ∧ v ≠ 0 ∧ (piece.x + x + dx < 0 ∨ piece.x + x + dx ≥ COLS))) := by
  obtain ⟨b, hb, hiff⟩ := collide_spec hwf piece dx dy
  refine ⟨b, hb, hiff, ?_⟩
  intro hneg
  rw [hiff]
  constructor
  · rintro ⟨y, x, row, v, h1, h2, h3, h4⟩
    refine ⟨y, x, row, v, h1, h2, h3, ?_⟩
    have := hneg y x row v h1 h2 h3
    rcases h4 with h | h | h | ⟨h, _⟩
    · exact Or.inl h
    · exact Or.inr h
    · have : (0 : Int) ≤ ROWS := Int.ofNat_nonneg _
      omega
    · omega
  · rintro ⟨y, x, row, v, h1, h2, h3, h4⟩
    refine ⟨y, x, row, v, h1, h2, h3, ?_⟩
    rcases h4 with h | h
    · exact Or.inl h
    · exact Or.inr (Or.inl h)

theorem collide_iff_some_cell_blocked_witness :
    BoardWF kickBoard ∧
      ∃ b, collide kickBoard kickPiece 0 3 = .ok b ∧
        (b = true ↔ SomeCellBlocked kickBoard kickPiece 0 3) :=
  ⟨by decide,
    (collide_iff_some_cell_blocked kickBoard (by decide) kickPiece 0 3).elim
      fun b h => ⟨b, h.1, h.2.1⟩⟩

/-! ## Row clearing -/

theorem isFull_replicate_zero : isFull (List.replicate COLS 0) = false := by decide

theorem clearLoop_spec (fuel : Nat) :
    ∀ (board : Board) (n : Nat) (y : Int) (c : Nat),
      y = (n : Int) - 1 → n ≤ board.length →
      n + (board.take n).countP isFull + 1 ≤ fuel →
      clearLoop fuel board y c =
        .ok (List.replicate ((board.take n).countP isFull) (List.replicate COLS 0) ++
              (board.take n).filter (fun row => !isFull row) ++ board.drop n,
             c + (board.take n).countP isFull) := by
  induction fuel with
  | zero => intro board n y c _ _ h; omega
  | succ fuel ih =>
    intro board n y c hy hn hfuel
    unfold clearLoop
    cases n with
    | zero =>
      have : ¬ (y ≥ 0) := by omega
      rw [if_neg this]
      simp
    | succ m =>
      have hy0 : y ≥ 0 := by omega
      have hym : y.toNat = m := by omega
      rw [if_pos hy0, hym]
      have hm : m < board.length := by omega
      rw [List.getElem?_eq_getElem hm]
      simp only []
      have htake : board.take (m + 1) = board.take m ++ [board[m]] := by
        rw [List.take_succ, List.getElem?_eq_getElem hm]; rfl
      by_cases hfull : isFull board[m] = true
      · rw [if_pos hfull]
        have hcount : (board.take (m + 1)).countP isFull = (board.take m).countP isFull + 1 := by
          rw [htake, List.countP_append]; simp [hfull]
        have hlen : (board.take m).length = m := by
          rw [List.length_take]; omega
        have htake' : (List.replicate COLS 0 :: board.eraseIdx m).take (m + 1)
            = List.replicate COLS 0 :: board.take m := by
          rw [List.take_succ_cons, List.eraseIdx_eq_take_drop_succ, List.take_left' hlen]
        have hdrop' : (List.replicate COLS 0 :: board.eraseIdx m).drop (m + 1)
            = board.drop (m + 1) := by
          rw [List.drop_succ_cons, List.eraseIdx_eq_take_drop_succ, List.drop_left' hlen]
        have hcount' : ((List.replicate COLS 0 :: board.eraseIdx m).take (m + 1)).countP isFull
            = (board.take m).countP isFull := by
          rw [htake', List.countP_cons, isFull_replicate_zero]; simp
        have hlen' : m + 1 ≤ (List.replicate COLS 0 :: board.eraseIdx m).length := by
          rw [List.length_cons, List.length_eraseIdx]
          split <;> omega
        rw [ih (List.replicate COLS 0 :: board.eraseIdx m) (m + 1) (y + 1 - 1) (c + 1)
          (by omega) hlen' (by rw [hcount']; omega)]
        have hfilter : (board.take (m + 1)).filter (fun row => !isFull row)
            = (board.take m).filter (fun row => !isFull row) := by
          rw [htake, List.filter_append]; simp [hfull]
        have hfilter' : (List.replicate COLS 0 :: board.take m).filter (fun row => !isFull row)
            = List.replicate COLS 0 :: (board.take m).filter (fun row => !isFull row) := by
          rw [List.filter_cons]; simp [isFull_replicate_zero]
        rw [hcount', htake', hdrop', hcount, hfilter, hfilter', List.replicate_succ']
        have hc : c + 1 + (board.take m).countP isFull = c + ((board.take m).countP isFull + 1) := by
          omega
        rw [hc]
        simp [List.append_assoc]
      · rw [if_neg hfull]
        have hcount : (board.take (m + 1)).countP isFull = (board.take m).countP isFull := by
          rw [htake, List.countP_append]; simp [hfull]
        rw [ih board m (y - 1) c (by omega) (by omega) (by omega)]
        have hfilter : (board.take (m + 1)).filter (fun row => !isFull row)
            = (board.take m).filter (fun row => !isFull row) ++ [board[m]] := by
          rw [htake, List.filter_append]; simp [hfull]
        have hdrop : board.drop m = board[m] :: board.drop (m + 1) := List.drop_eq_getElem_cons hm
        rw [hcount, hfilter, hdrop]
        simp [List.append_assoc]


theorem countP_le_rows {board : Board} (hwf : BoardWF board) : board.countP isFull ≤ ROWS := by
  rw [← hwf.1]
  exact List.countP_le_length _

theorem compacted_wf {board : Board} (hwf : BoardWF board) :
    BoardWF (List.replicate (board.countP isFull) (List.replicate COLS 0) ++
      board.filter (fun row => !isFull row)) := by
  constructor
  · have h := List.length_eq_countP_add_countP (p := isFull) (l := board)
    rw [List.length_append, List.length_replicate, ← List.countP_eq_length_filter, ← hwf.1]
    have : List.countP (fun a => decide ¬isFull a = true) board
        = List.countP (fun row => !isFull row) board := by
      congr 1
      funext a
      cases isFull a <;> simp
    omega
  · intro row hrow
    rw [List.mem_append] at hrow
    rcases hrow with h | h
    · rw [(List.mem_replicate.mp h).2]
      simp
    · exact hwf.2 row (List.mem_filter.mp h).1

theorem clearLoop_of_wf {board : Board} (hwf : BoardWF board) {fuel : Nat}
    (hfuel : 2 * ROWS + 1 ≤ fuel) (c : Nat) :
    clearLoop fuel board ((ROWS : Int) - 1) c =
      .ok (List.replicate (board.countP isFull) (List.replicate COLS 0) ++
            board.filter (fun row => !isFull row), c + board.countP isFull) := by
  have hk := countP_le_rows hwf
  have h := clearLoop_spec fuel board ROWS ((ROWS : Int) - 1) c rfl (by rw [hwf.1])
    (by rw [← hwf.1, List.take_length]; rw [hwf.1]; omega)
  rw [h, ← hwf.1, List.take_length, List.drop_length, List.append_nil]

theorem filter_not_full_of_none {board : Board} (h : board.countP isFull = 0) :
    board.filter (fun row => !isFull row) = board := by
  rw [List.filter_eq_self]
  intro row hrow
  have := List.countP_eq_zero.mp h row hrow
  simpa using this

theorem updateProgress_board (s : State) (board : Board) (n : Nat) :
    (updateProgress s board n).board = board := by
  unfold updateProgress
  split
  · simp only []
    split <;> rfl
  · rfl

theorem clearLines_of_wf {s : State} (hwf : BoardWF s.board) {fuel : Nat}
    (hfuel : 2 * ROWS + 1 ≤ fuel) :
    clearLines fuel s =
      .ok (updateProgress s
        (List.replicate (s.board.countP isFull) (List.replicate COLS 0) ++
          s.board.filter (fun row => !isFull row)) (s.board.countP isFull)) := by
  have hloop := clearLoop_of_wf hwf hfuel 0
  rw [Nat.zero_add] at hloop
  unfold clearLines
  rw [hloop]

/-- C2: on every `ROWS × COLS` board the row-clearing loop of `clearLines` terminates (any
fuel from `2 * ROWS + 1` on is enough) and leaves a `ROWS × COLS` board made of `k` empty
rows on top, followed by the non-full rows of the input in their original order, where `k`
is the number of full rows of the input, wherever they are; the cleared count is `k`, and
`clearLines` stores that board.  A board without a full row, such as the empty board, is
left unchanged with cleared count `0`. -/
theorem clearLines_compacts (s : State) (hwf : BoardWF s.board) (fuel : Nat)
    (hfuel : 2 * ROWS + 1 ≤ fuel) :
    clearLoop fuel s.board ((ROWS : Int) - 1) 0 =
        .ok (List.replicate (s.board.countP isFull) (List.replicate COLS 0) ++
              s.board.filter (fun row => !isFull row), s.board.countP isFull) ∧
      BoardWF (List.replicate (s.board.countP isFull) (List.replicate COLS 0) ++
        s.board.filter (fun row => !isFull row)) ∧
      (∃ s1, clearLines fuel s = .ok s1 ∧
        s1.board = List.replicate (s.board.countP isFull) (List.replicate COLS 0) ++
          s.board.filter (fun row => !isFull row)) ∧
      (s.board.countP isFull = 0 →
        clearLoop fuel s.board ((ROWS : Int) - 1) 0 = .ok (s.board, 0)) ∧
      clearLoop fuel initBoard ((ROWS : Int) - 1) 0 = .ok (initBoard, 0) := by
  have hloop := clearLoop_of_wf hwf hfuel 0
  rw [Nat.zero_add] at hloop
  refine ⟨hloop, compacted_wf hwf, ?_, ?_, ?_⟩
  · exact ⟨_, clearLines_of_wf hwf hfuel, updateProgress_board _ _ _⟩
  · intro h0
    rw [hloop, h0, filter_not_full_of_none h0]
    rfl
  · have hinit : BoardWF initBoard := by decide
    have h0 : initBoard.countP isFull = 0 := by decide
    have := clearLoop_of_wf hinit hfuel 0
    rw [this, h0, filter_not_full_of_none h0]
    rfl

theorem clearLines_compacts_witness :
    BoardWF twoFullBoard ∧ 2 * ROWS + 1 ≤ 41 ∧
      clearLoop 41 twoFullBoard ((ROWS : Int) - 1) 0 =
        .ok (List.replicate (twoFullBoard.countP isFull) (List.replicate COLS 0) ++
              twoFullBoard.filter (fun row => !isFull row), twoFullBoard.countP isFull) :=
  ⟨by decide, by decide,
    (clearLines_compacts { idleState with board := twoFullBoard } (by decide) 41
      (by decide)).1⟩

/-! ## Scoring -/

/-- C5: for every state with level `L` whose `ROWS × COLS` board holds exactly `n` full
rows, `clearLines` adds exactly `100 * L`, `300 * L`, `500 * L` or `800 * L` to the score
when `n` is 1, 2, 3 or 4, and leaves score, lines, level and drop interval unchanged when
`n` is 0. -/
theorem clearLines_score (s : State) (hwf : BoardWF s.board) (fuel : Nat)
    (hfuel : 2 * ROWS + 1 ≤ fuel) :
    ∃ s1, clearLines fuel s = .ok s1 ∧
      (s.board.countP isFull = 0 →
        s1.score = s.score ∧ s1.lines = s.lines ∧ s1.level = s.level ∧
          s1.dropInterval = s.dropInterval) ∧
      (s.board.countP isFull = 1 → s1.score = s.score.map fun sc => sc + 100 * s.level) ∧
      (s.board.countP isFull = 2 → s1.score = s.score.map fun sc => sc + 300 * s.level) ∧
      (s.board.countP isFull = 3 → s1.score = s.score.map fun sc => sc + 500 * s.level) ∧
      (s.board.countP isFull = 4 → s1.score = s.score.map fun sc => sc + 800 * s.level) := by
  refine ⟨_, clearLines_of_wf hwf hfuel, ?_, ?_, ?_, ?_, ?_⟩
  · intro h
    rw [h]
    exact ⟨rfl, rfl, rfl, rfl⟩
  all_goals
    intro h
    rw [h]
    unfold updateProgress
    simp only [lineScores]
    split
    · split <;> rfl
    · omega

theorem clearLines_score_witness :
    BoardWF twoFullBoard ∧ 2 * ROWS + 1 ≤ 41 ∧
      ∃ s1, clearLines 41 { idleState with board := twoFullBoard, level := 3 } = .ok s1 ∧
        (twoFullBoard.countP isFull = 2 → s1.score = some (0 + 300 * 3)) :=
  ⟨by decide, by decide,
    (clearLines_score { idleState with board := twoFullBoard, level := 3 } (by decide) 41
      (by decide)).elim fun s1 h => ⟨s1, h.1, h.2.2.2.1⟩⟩

/-! ## Rotation -/

theorem turned_length (shape : Shape) (n : Nat) : (turned shape n).length = n := by
  simp [turned]

theorem turned_row_length (shape : Shape) (n : Nat) :
    ∀ row ∈ turned shape n, row.length = shape.length := by
  intro row hrow
  simp only [turned, List.mem_map] at hrow
  obtain ⟨i, _, rfl⟩ := hrow
  simp

theorem cellAt_turned (shape : Shape) (n i j : Nat) (hi : i < n) (hj : j < shape.length) :
    cellAt (turned shape n) i j = cellAt shape (shape.length - 1 - j) i := by
  unfold cellAt turned
  have h1 : i < ((List.range n).map fun i => (shape.map fun row => row.getD i 0).reverse).length := by
    simpa using hi
  rw [List.getD_eq_getElem _ _ h1]
  simp only [List.getElem_map, List.getElem_range]
  have h2 : j < (shape.map fun row => row.getD i 0).reverse.length := by simpa using hj
  rw [List.getD_eq_getElem _ _ h2, List.getElem_reverse]
  simp only [List.getElem_map, List.length_map]
  have h3 : shape.length - 1 - j < shape.length := by omega
  rw [List.getD_eq_getElem shape [] h3]

theorem rotateShape_of_square {shape : Shape} {n : Nat} (hsq : IsSquare shape n) (hn : 0 < n) :
    rotateShape shape = .ok (turned shape n) := by
  obtain ⟨hlen, hrows⟩ := hsq
  cases shape with
  | nil => simp at hlen; omega
  | cons row0 rest =>
    have : row0.length = n := hrows row0 (List.mem_cons_self _ _)
    simp [rotateShape, turned, this]

theorem turned_square {shape : Shape} {n : Nat} (hsq : IsSquare shape n) :
    IsSquare (turned shape n) n := by
  refine ⟨turned_length shape n, ?_⟩
  intro row hrow
  rw [turned_row_length shape n row hrow]
  exact hsq.1

theorem square_ext {a b : Shape} {n : Nat} (ha : IsSquare a n) (hb : IsSquare b n)
    (h : ∀ y x, y < n → x < n → cellAt a y x = cellAt b y x) : a = b := by
  apply List.ext_getElem (by rw [ha.1, hb.1])
  intro y hy1 hy2
  have hya : (a[y]).length = n := ha.2 _ (List.getElem_mem _)
  have hyb : (b[y]).length = n := hb.2 _ (List.getElem_mem _)
  apply List.ext_getElem (by rw [hya, hyb])
  intro x hx1 hx2
  have := h y x (by rw [← ha.1]; exact hy1) (by rw [← hya]; exact hx1)
  unfold cellAt at this
  rw [List.getD_eq_getElem a [] hy1, List.getD_eq_getElem b [] hy2,
    List.getD_eq_getElem _ 0 hx1, List.getD_eq_getElem _ 0 hx2] at this
  exact this

theorem turned_four {shape : Shape} {n : Nat} (hsq : IsSquare shape n) :
    turned (turned (turned (turned shape n) n) n) n = shape := by
  have h1 := turned_square hsq
  have h2 := turned_square h1
  have h3 := turned_square h2
  have h4 := turned_square h3
  apply square_ext h4 hsq
  intro y x hy hx
  rw [cellAt_turned _ n y x hy (by rw [h3.1]; exact hx), h3.1,
    cellAt_turned _ n _ y (by omega) (by rw [h2.1]; exact hy), h2.1,
    cellAt_turned _ n _ _ (by omega) (by rw [h1.1]; omega), h1.1,
    cellAt_turned _ n _ _ (by omega) (by rw [hsq.1]; omega), hsq.1]
  congr 1 <;> omega


theorem rotatePiece_firstFit (board : Board) (hwf : BoardWF board) (piece : Piece)
    (rotated : Shape) (hrot : rotateShape piece.shape = .ok rotated) :
    rotatePiece board piece = .ok (firstFit board piece rotated kickOffsets) := by
  have e1 : piece.x - 1 = piece.x + -1 := by omega
  have e2 : piece.x + -1 + 2 = piece.x + 1 := by omega
  have e3 : piece.x + 1 - 1 = piece.x := by omega
  have e4 : piece.y - 1 = piece.y + -1 := by omega
  unfold rotatePiece
  rw [hrot]
  simp only [firstFit, candidates, kickOffsets, List.map_cons, List.map_nil, List.find?_cons, fits]
  simp only [e1, e2, e3, e4, add_zero]
  rcases collide_ok_of_wf hwf { piece with shape := rotated } 0 0 with h1 | h1 <;>
  rcases collide_ok_of_wf hwf { piece with shape := rotated, x := piece.x + -1 } 0 0 with h2 | h2 <;>
  rcases collide_ok_of_wf hwf { piece with shape := rotated, x := piece.x + 1 } 0 0 with h3 | h3 <;>
  rcases collide_ok_of_wf hwf { piece with shape := rotated, y := piece.y + -1 } 0 0 with h4 | h4 <;>
  simp [h1, h2, h3, h4]


/-- C3 (amended): on a `ROWS × COLS` board, for a piece whose shape has a first row,
`rotatePiece` returns the first of four placements of the rotated shape that does not
collide, tried in the order same origin `(x, y)`, `(x - 1, y)`, `(x + 1, y)`, `(x, y - 1)`;
when all four collide it returns the original piece unchanged. -/
theorem rotatePiece_tries_four (board : Board) (hwf : BoardWF board) (piece : Piece)
    (hshape : piece.shape ≠ []) :
    ∃ rotated, rotateShape piece.shape = .ok rotated ∧
      candidates piece rotated kickOffsets =
        [{ piece with shape := rotated },
         { piece with shape := rotated, x := piece.x - 1 },
         { piece with shape := rotated, x := piece.x + 1 },
         { piece with shape := rotated, y := piece.y - 1 }] ∧
      rotatePiece board piece = .ok (firstFit board piece rotated kickOffsets) ∧
      ((∀ c ∈ candidates piece rotated kickOffsets, fits board c = false) →
        rotatePiece board piece = .ok piece) := by
  cases hs : piece.shape with
  | nil => exact absurd hs hshape
  | cons row0 rest =>
    have hrot : rotateShape piece.shape = .ok (turned piece.shape row0.length) := by
      rw [hs]; rfl
    rw [← hs]
    refine ⟨_, hrot, ?_, rotatePiece_firstFit board hwf piece _ hrot, ?_⟩
    · simp only [candidates, kickOffsets, List.map_cons, List.map_nil, add_zero]
      rfl
    · intro hall
      rw [rotatePiece_firstFit board hwf piece _ hrot]
      unfold firstFit
      have : (candidates piece (turned piece.shape row0.length) kickOffsets).find? (fits board)
          = none := by
        rw [List.find?_eq_none]
        intro c hc
        rw [hall c hc]
        decide
      rw [this]
      rfl

theorem rotatePiece_tries_four_witness :
    BoardWF kickBoard ∧ kickPiece.shape ≠ [] ∧
      ∃ rotated, rotateShape kickPiece.shape = .ok rotated ∧
        rotatePiece kickBoard kickPiece = .ok (firstFit kickBoard kickPiece rotated kickOffsets) :=
  ⟨by decide, by decide,
    (rotatePiece_tries_four kickBoard (by decide) kickPiece (by decide)).elim
      fun r h => ⟨r, h.1, h.2.2.1⟩⟩

/-- C3 (as stated, refuted): with the fourth candidate at `(x - 1, y - 1)` the claim
predicts the origin `(2, 13)` for the upright I piece in the well of `kickBoard`, where all
of `(3, 14)`, `(2, 14)`, `(4, 14)` collide; `rotatePiece` returns the origin `(3, 13)`. -/
theorem rotatePiece_fourth_candidate_is_up :
    rotatePiece kickBoard kickPiece =
        .ok { shape := [[0, 0, 0, 0], [0, 0, 0, 0], [1, 1, 1, 1], [0, 0, 0, 0]],
              x := 3, y := 13, type := 1 } ∧
      firstFit kickBoard kickPiece [[0, 0, 0, 0], [0, 0, 0, 0], [1, 1, 1, 1], [0, 0, 0, 0]]
          specKickOffsets =
        { shape := [[0, 0, 0, 0], [0, 0, 0, 0], [1, 1, 1, 1], [0, 0, 0, 0]],
          x := 2, y := 13, type := 1 } ∧
      rotatePiece kickBoard kickPiece ≠
        .ok (firstFit kickBoard kickPiece
          [[0, 0, 0, 0], [0, 0, 0, 0], [1, 1, 1, 1], [0, 0, 0, 0]] specKickOffsets) := by
  decide

theorem rotatePiece_cases {board : Board} (hwf : BoardWF board) {piece : Piece} {n : Nat}
    (hn : 0 < n) (hsq : IsSquare piece.shape n) :
    ∃ p1, rotatePiece board piece = .ok p1 ∧
      ((p1.shape = turned piece.shape n ∧ ¬ Rejected board piece) ∨
        (p1 = piece ∧ Rejected board piece)) := by
  have hrot := rotateShape_of_square hsq hn
  refine ⟨_, rotatePiece_firstFit board hwf piece _ hrot, ?_⟩
  unfold firstFit
  cases hfind : (candidates piece (turned piece.shape n) kickOffsets).find? (fits board) with
  | none =>
    right
    refine ⟨rfl, turned piece.shape n, hrot, ?_⟩
    intro c hc
    have := List.find?_eq_none.mp hfind c hc
    simpa using this
  | some c =>
    left
    have hmem := List.mem_of_find?_eq_some hfind
    have hfit := List.find?_some hfind
    constructor
    · simp only [candidates, List.mem_map] at hmem
      obtain ⟨o, _, rfl⟩ := hmem
      rfl
    · rintro ⟨r, hr, hall⟩
      rw [hrot] at hr
      cases hr
      rw [hall c hmem] at hfit
      exact absurd hfit (by decide)

theorem rotatePiece_square {board : Board} (hwf : BoardWF board) {piece : Piece} {n : Nat}
    (hn : 0 < n) (hsq : IsSquare piece.shape n) :
    ∃ p1, rotatePiece board piece = .ok p1 ∧ IsSquare p1.shape n ∧
      (¬ Rejected board piece → p1.shape = turned piece.shape n) := by
  obtain ⟨p1, h1, hcase⟩ := rotatePiece_cases hwf hn hsq
  refine ⟨p1, h1, ?_, ?_⟩
  · rcases hcase with ⟨h, _⟩ | ⟨h, _⟩
    · rw [h]; exact turned_square hsq
    · rw [h]; exact hsq
  · intro hnot
    rcases hcase with ⟨h, _⟩ | ⟨_, h⟩
    · exact h
    · exact absurd h hnot

/-- C4: for every piece with a square `n × n` shape (`n > 0`) on a `ROWS × COLS` board, the
shape rotated by `rotatePiece` satisfies `new[x][n-1-y] = old[y][x]`, and four successive
calls of `rotatePiece`, none of them rejected by the kick sequence, give a piece whose shape
is the original shape.  Each of the seven catalog shapes is square. -/
theorem rotate_four_times (board : Board) (hwf : BoardWF board) (piece : Piece) (n : Nat)
    (hn : 0 < n) (hsq : IsSquare piece.shape n) :
    (∃ rotated, rotateShape piece.shape = .ok rotated ∧ IsSquare rotated n ∧
      (∀ x y, x < n → y < n → cellAt rotated x (n - 1 - y) = cellAt piece.shape y x) ∧
      ∃ p1, rotatePiece board piece = .ok p1 ∧
        (¬ Rejected board piece → p1.shape = rotated)) ∧
    (∃ p1 p2 p3 p4, rotatePiece board piece = .ok p1 ∧ rotatePiece board p1 = .ok p2 ∧
      rotatePiece board p2 = .ok p3 ∧ rotatePiece board p3 = .ok p4 ∧
      (¬ Rejected board piece → ¬ Rejected board p1 → ¬ Rejected board p2 →
        ¬ Rejected board p3 → p4.shape = piece.shape)) ∧
    (∀ shape ∈ SHAPES, 0 < shape.length ∧ IsSquare shape shape.length) := by
  obtain ⟨p1, h1, hs1, hr1⟩ := rotatePiece_square hwf hn hsq
  obtain ⟨p2, h2, hs2, hr2⟩ := rotatePiece_square hwf hn hs1
  obtain ⟨p3, h3, hs3, hr3⟩ := rotatePiece_square hwf hn hs2
  obtain ⟨p4, h4, hs4, hr4⟩ := rotatePiece_square hwf hn hs3
  refine ⟨⟨turned piece.shape n, rotateShape_of_square hsq hn, turned_square hsq, ?_,
    p1, h1, hr1⟩, ⟨p1, p2, p3, p4, h1, h2, h3, h4, ?_⟩, ?_⟩
  · intro x y hx hy
    rw [cellAt_turned _ n x _ hx (by rw [hsq.1]; omega), hsq.1]
    congr 1
    omega
  · intro n0 n1 n2 n3
    rw [hr4 n3, hr3 n2, hr2 n1, hr1 n0]
    exact turned_four hsq
  · decide

theorem rotate_four_times_witness :
    BoardWF initBoard ∧ 0 < 3 ∧ IsSquare (createPiece ⟨2, by decide⟩).shape 3 ∧
      ∃ p1 p2 p3 p4, rotatePiece initBoard (createPiece ⟨2, by decide⟩) = .ok p1 ∧
        rotatePiece initBoard p1 = .ok p2 ∧ rotatePiece initBoard p2 = .ok p3 ∧
        rotatePiece initBoard p3 = .ok p4 ∧
        (¬ Rejected initBoard (createPiece ⟨2, by decide⟩) → ¬ Rejected initBoard p1 →
          ¬ Rejected initBoard p2 → ¬ Rejected initBoard p3 →
          p4.shape = (createPiece ⟨2, by decide⟩).shape) :=
  ⟨by decide, by decide, by decide,
    (rotate_four_times initBoard (by decide) (createPiece ⟨2, by decide⟩) 3 (by decide)
      (by decide)).2.1⟩


/-! ## Movement and placement -/

theorem someCellBlocked_moved (board : Board) (piece : Piece) (a c dx dy : Int) :
    SomeCellBlocked board { piece with x := piece.x + a, y := piece.y + c } dx dy ↔
      SomeCellBlocked board piece (dx + a) (dy + c) := by
  unfold SomeCellBlocked
  have e1 : ∀ x : Nat, piece.x + a + (x : Int) + dx = piece.x + x + (dx + a) := by
    intro x; omega
  have e2 : ∀ y : Nat, piece.y + c + (y : Int) + dy = piece.y + y + (dy + c) := by
    intro y; omega
  simp only [e1, e2]

theorem collide_moved {board : Board} (hwf : BoardWF board) (piece : Piece) (a c dx dy : Int) :
    collide board { piece with x := piece.x + a, y := piece.y + c } dx dy =
      collide board piece (dx + a) (dy + c) := by
  rcases collide_ok_of_wf hwf piece (dx + a) (dy + c) with h | h
  · rw [h, collide_true_iff hwf, someCellBlocked_moved]
    exact (collide_true_iff hwf _ _ _).mp h
  · rw [h, collide_false_iff hwf, someCellBlocked_moved]
    exact (collide_false_iff hwf _ _ _).mp h

theorem writeCell_ok {board : Board} (hwf : BoardWF board) {r c : Int} (v : Nat)
    (hr0 : 0 ≤ r) (hr : r < ROWS) (hc0 : 0 ≤ c) (hc : c < COLS) :
    ∃ b1, writeCell board r c v = .ok b1 ∧ BoardWF b1 ∧
      b1.countP isFull ≤ board.countP isFull + 1 := by
  obtain ⟨row, hrow, hlen⟩ := row_of_wf hwf (r := r.toNat) (by omega)
  have hneg : ¬ (r < 0 ∨ c < 0) := by omega
  have hc' : c.toNat < row.length := by omega
  refine ⟨board.set r.toNat (row.set c.toNat v), ?_, ?_, ?_⟩
  · simp [writeCell, hneg, hrow, hc']
  · constructor
    · rw [List.length_set]; exact hwf.1
    · intro row' hrow'
      rcases List.mem_or_eq_of_mem_set hrow' with h | h
      · exact hwf.2 _ h
      · rw [h, List.length_set]; exact hlen
  · have hlt : r.toNat < board.length := by rw [hwf.1]; omega
    rw [List.countP_set _ _ _ _ hlt]
    split <;> split <;> omega

theorem placeRow_ok (piece : Piece) (y : Nat) (cells : List Nat) :
    ∀ (x0 : Nat) (board : Board), BoardWF board →
      (∀ (i : Nat) (v : Nat), cells[i]? = some v → v ≠ 0 → 0 ≤ piece.y + y →
        0 ≤ piece.x + ((x0 + i : Nat) : Int) ∧ piece.x + ((x0 + i : Nat) : Int) < COLS ∧
          piece.y + y < ROWS) →
      ∃ b1, placeRow piece y cells x0 board = .ok b1 ∧ BoardWF b1 ∧
        b1.countP isFull ≤ board.countP isFull + cells.countP (fun cell => cell != 0) := by
  induction cells with
  | nil =>
    intro x0 board hwf _
    exact ⟨board, rfl, hwf, by simp⟩
  | cons cell rest ih =>
    intro x0 board hwf hin
    have hin' : ∀ (i : Nat) (v : Nat), rest[i]? = some v → v ≠ 0 → 0 ≤ piece.y + y →
        0 ≤ piece.x + ((x0 + 1 + i : Nat) : Int) ∧ piece.x + ((x0 + 1 + i : Nat) : Int) < COLS ∧
          piece.y + y < ROWS := by
      intro i v h1 h2 h3
      have := hin (i + 1) v (by simpa using h1) h2 h3
      have e : x0 + (i + 1) = x0 + 1 + i := by omega
      rw [e] at this
      exact this
    unfold placeRow
    by_cases hcell : cell ≠ 0
    · rw [if_pos hcell]
      simp only []
      have hcnt : (cell :: rest).countP (fun cell => cell != 0)
          = rest.countP (fun cell => cell != 0) + 1 := by
        rw [List.countP_cons]; simp [hcell]
      by_cases hy : piece.y + (y : Int) ≥ 0
      · rw [if_pos hy]
        have h0 := hin 0 cell (by simp) hcell hy
        simp only [Nat.add_zero] at h0
        obtain ⟨b1, hb1, hwf1, hc1⟩ := writeCell_ok hwf piece.type hy h0.2.2 h0.1 h0.2.1
        rw [hb1]
        simp only []
        obtain ⟨b2, hb2, hwf2, hc2⟩ := ih (x0 + 1) b1 hwf1 hin'
        exact ⟨b2, hb2, hwf2, by omega⟩
      · rw [if_neg hy]
        obtain ⟨b2, hb2, hwf2, hc2⟩ := ih (x0 + 1) board hwf hin'
        exact ⟨b2, hb2, hwf2, by omega⟩
    · rw [if_neg hcell]
      have hcnt : (cell :: rest).countP (fun cell => cell != 0)
          = rest.countP (fun cell => cell != 0) := by
        rw [List.countP_cons]; simp at hcell; simp [hcell]
      obtain ⟨b2, hb2, hwf2, hc2⟩ := ih (x0 + 1) board hwf hin'
      exact ⟨b2, hb2, hwf2, by omega⟩

theorem placeRows_ok (piece : Piece) (rows : List (List Nat)) :
    ∀ (y0 : Nat) (board : Board), BoardWF board →
      (∀ (j i : Nat) (row : List Nat) (v : Nat), rows[j]? = some row → row[i]? = some v →
        v ≠ 0 → 0 ≤ piece.y + ((y0 + j : Nat) : Int) →
        0 ≤ piece.x + (i : Int) ∧ piece.x + (i : Int) < COLS ∧
          piece.y + ((y0 + j : Nat) : Int) < ROWS) →
      ∃ b1, placeRows piece rows y0 board = .ok b1 ∧ BoardWF b1 ∧
        b1.countP isFull ≤ board.countP isFull + occupiedCount rows := by
  induction rows with
  | nil =>
    intro y0 board hwf _
    exact ⟨board, rfl, hwf, by simp [occupiedCount]⟩
  | cons row rest ih =>
    intro y0 board hwf hin
    unfold placeRows
    obtain ⟨b1, hb1, hwf1, hc1⟩ := placeRow_ok piece y0 row 0 board hwf (by
      intro i v h1 h2 h3
      have := hin 0 i row v (by simp) h1 h2 (by simpa using h3)
      simpa using this)
    rw [hb1]
    simp only []
    obtain ⟨b2, hb2, hwf2, hc2⟩ := ih (y0 + 1) b1 hwf1 (by
      intro j i r v h1 h2 h3 h4
      have e : y0 + 1 + j = y0 + (j + 1) := by omega
      rw [e] at h4 ⊢
      exact hin (j + 1) i r v (by simpa using h1) h2 h3 h4)
    refine ⟨b2, hb2, hwf2, ?_⟩
    have : occupiedCount (row :: rest)
        = row.countP (fun cell => cell != 0) + occupiedCount rest := by
      simp [occupiedCount]
    omega

theorem placePiece_ok {s : State} {piece : Piece} (hwf : BoardWF s.board)
    (hcur : s.currentPiece = some piece) (hfree : collide s.board piece 0 0 = .ok false) :
    ∃ b1, placePiece s = .ok { s with board := b1 } ∧ BoardWF b1 ∧
      b1.countP isFull ≤ s.board.countP isFull + occupiedCount piece.shape := by
  have hnb := (collide_false_iff hwf piece 0 0).mp hfree
  obtain ⟨b1, hb1, hwf1, hc1⟩ := placeRows_ok piece piece.shape 0 s.board hwf (by
    intro j i row v h1 h2 h3 h4
    simp only [Nat.zero_add] at h4 ⊢
    have hb : ¬ Blocked s.board (piece.x + i + 0) (piece.y + j + 0) := fun h =>
      hnb ⟨j, i, row, v, h1, h2, h3, h⟩
    unfold Blocked at hb
    simp only [add_zero] at hb
    refine ⟨?_, ?_, ?_⟩
    · by_contra h; exact hb (Or.inl (by omega))
    · by_contra h; exact hb (Or.inr (Or.inl (by omega)))
    · by_contra h; exact hb (Or.inr (Or.inr (Or.inl (by omega)))))
  refine ⟨b1, ?_, hwf1, hc1⟩
  unfold placePiece
  rw [hcur]
  simp only []
  rw [hb1]

/-! ## The state invariant -/

theorem orientations_closed :
    ∀ sh ∈ orientations, 0 < sh.length ∧ IsSquare sh sh.length ∧
      turned sh sh.length ∈ orientations := by
  decide

theorem orientations_count : ∀ sh ∈ orientations, occupiedCount sh ≤ 4 := by decide

theorem catalog_orientation (t : Fin SHAPES.length) : (createPiece t).shape ∈ orientations := by
  revert t; decide

theorem clearLoop_mono (fuel : Nat) :
    ∀ (board : Board) (y : Int) (c : Nat) (r : Board × Nat),
      clearLoop fuel board y c = .ok r → ∀ k, clearLoop (fuel + k) board y c = .ok r := by
  induction fuel with
  | zero => intro board y c r h; simp [clearLoop] at h
  | succ fuel ih =>
    intro board y c r h k
    have e : fuel + 1 + k = (fuel + k) + 1 := by omega
    rw [e]
    unfold clearLoop at h ⊢
    by_cases hy : y ≥ 0
    · rw [if_pos hy] at h ⊢
      cases hrow : board[y.toNat]? with
      | none => rw [hrow] at h; simp at h
      | some row =>
        rw [hrow] at h
        simp only [] at h ⊢
        by_cases hfull : isFull row = true
        · rw [if_pos hfull] at h ⊢
          exact ih _ _ _ _ h k
        · rw [if_neg hfull] at h ⊢
          exact ih _ _ _ _ h k
    · rw [if_neg hy] at h ⊢
      exact h

theorem clearLines_eq_of_ok {s s1 : State} (hwf : BoardWF s.board) {fuel : Nat}
    (h : clearLines fuel s = .ok s1) :
    s1 = updateProgress s
      (List.replicate (s.board.countP isFull) (List.replicate COLS 0) ++
        s.board.filter (fun row => !isFull row)) (s.board.countP isFull) := by
  unfold clearLines at h
  cases hl : clearLoop fuel s.board ((ROWS : Int) - 1) 0 with
  | error e => rw [hl] at h; simp at h
  | ok r =>
    have h1 := clearLoop_mono fuel _ _ _ _ hl (2 * ROWS + 1)
    have h2 := clearLoop_of_wf hwf (show 2 * ROWS + 1 ≤ fuel + (2 * ROWS + 1) by omega) 0
    rw [h1, Nat.zero_add] at h2
    cases h2
    rw [hl] at h
    simp only [Except.ok.injEq] at h
    exact h.symm

theorem compacted_noFull (board : Board) :
    (List.replicate (board.countP isFull) (List.replicate COLS 0) ++
      board.filter (fun row => !isFull row)).countP isFull = 0 := by
  rw [List.countP_eq_zero]
  intro row hrow
  rw [List.mem_append] at hrow
  rcases hrow with h | h
  · rw [(List.mem_replicate.mp h).2, isFull_replicate_zero]
    decide
  · have := (List.mem_filter.mp h).2
    simpa using this

theorem updateProgress_pieces (s : State) (board : Board) (n : Nat) :
    (updateProgress s board n).currentPiece = s.currentPiece ∧
      (updateProgress s board n).nextPiece = s.nextPiece ∧
      (updateProgress s board n).gameRunning = s.gameRunning ∧
      (updateProgress s board n).gamePaused = s.gamePaused := by
  unfold updateProgress
  split
  · simp only []
    split <;> exact ⟨rfl, rfl, rfl, rfl⟩
  · exact ⟨rfl, rfl, rfl, rfl⟩

theorem updateProgress_lines (s : State) (board : Board) (n : Nat) :
    (updateProgress s board n).lines = s.lines + n := by
  unfold updateProgress
  split
  · simp only []
    split <;> rfl
  · have : n = 0 := by omega
    rw [this]; rfl

theorem updateProgress_level (s : State) (board : Board) (n : Nat)
    (hl : s.level = s.lines / 10 + 1)
    (hi : s.dropInterval = max 100 (1000 - ((s.level : Int) - 1) * 50)) :
    (updateProgress s board n).level = (updateProgress s board n).lines / 10 + 1 ∧
      (updateProgress s board n).dropInterval =
        max 100 (1000 - (((updateProgress s board n).level : Int) - 1) * 50) := by
  unfold updateProgress
  split
  · simp only []
    split
    · exact ⟨rfl, rfl⟩
    · rename_i h1 h2
      refine ⟨?_, hi⟩
      show s.level = (s.lines + n) / 10 + 1
      have : s.lines / 10 ≤ (s.lines + n) / 10 := Nat.div_le_div_right (by omega)
      omega
  · exact ⟨hl, hi⟩

theorem updateProgress_score (s : State) (board : Board) (n : Nat) (hn : n ≤ 4)
    (hs : ∃ m, s.score = some m) : ∃ m, (updateProgress s board n).score = some m := by
  obtain ⟨m, hm⟩ := hs
  have hpts : ∃ pts, lineScores[n]? = some pts := by
    have : n = 0 ∨ n = 1 ∨ n = 2 ∨ n = 3 ∨ n = 4 := by omega
    rcases this with h | h | h | h | h <;> subst h <;> exact ⟨_, rfl⟩
  obtain ⟨pts, hpts⟩ := hpts
  unfold updateProgress
  split
  · simp only [hpts, hm]
    split <;> exact ⟨_, rfl⟩
  · exact ⟨m, hm⟩

theorem spawnPiece_inv {s : State} (hb : Base s) (r1 r2 : Fin SHAPES.length) :
    ∃ s1, spawnPiece s r1 r2 = .ok s1 ∧ Inv s1 ∧ s1.board = s.board ∧ s1.lines = s.lines ∧
      s1.score = s.score ∧ (s1.gameRunning = true → s.gameRunning = true) := by
  obtain ⟨t, ht⟩ := hb.next
  unfold spawnPiece
  rw [ht]
  simp only []
  rcases collide_ok_of_wf hb.wf (createPiece t) 0 0 with h | h
  · rw [h]
    refine ⟨_, rfl, ⟨⟨hb.wf, hb.noFull, hb.score, ⟨r2, rfl⟩, hb.level, hb.interval⟩,
      ⟨createPiece t, rfl, catalog_orientation t⟩, ?_⟩, rfl, rfl, rfl, ?_⟩
    · intro hrun; simp [gameOver] at hrun
    · intro hrun; simp [gameOver] at hrun
  · rw [h]
    refine ⟨_, rfl, ⟨⟨hb.wf, hb.noFull, hb.score, ⟨r2, rfl⟩, hb.level, hb.interval⟩,
      ⟨createPiece t, rfl, catalog_orientation t⟩, ?_⟩, rfl, rfl, rfl, ?_⟩
    · intro _ p hp
      simp only [Option.some.injEq] at hp
      rw [← hp]
      exact h
    · intro hrun; exact hrun

theorem inv_score_update {s : State} (hi : Inv s) (f : Nat → Nat) :
    Inv { s with score := s.score.map f } := by
  obtain ⟨⟨h1, h2, ⟨n, h3⟩, h4, h5, h6⟩, hc, hf⟩ := hi
  exact ⟨⟨h1, h2, ⟨f n, by simp [h3]⟩, h4, h5, h6⟩, hc, hf⟩

theorem lockPiece_total {s : State} (hi : Inv s) (hrun : s.gameRunning = true) {fuel : Nat}
    (hfuel : 2 * ROWS + 1 ≤ fuel) (r1 r2 : Fin SHAPES.length) :
    ∃ s1, lockPiece fuel s r1 r2 = .ok s1 ∧ Inv s1 ∧ s.lines ≤ s1.lines ∧
      s1.lines ≤ s.lines + 4 := by
  obtain ⟨p, hp, hor⟩ := hi.cur
  have hfree := hi.free hrun p hp
  obtain ⟨b1, hb1, hwf1, hc1⟩ := placePiece_ok hi.base.wf hp hfree
  have hk : b1.countP isFull ≤ 4 := by
    have := orientations_count p.shape hor
    have := hi.base.noFull
    omega
  have hcl := clearLines_of_wf (s := { s with board := b1 }) hwf1 hfuel
  have hbase : Base (updateProgress { s with board := b1 }
      (List.replicate (b1.countP isFull) (List.replicate COLS 0) ++
        b1.filter (fun row => !isFull row)) (b1.countP isFull)) := by
    have hpc := updateProgress_pieces { s with board := b1 }
      (List.replicate (b1.countP isFull) (List.replicate COLS 0) ++
        b1.filter (fun row => !isFull row)) (b1.countP isFull)
    have hlv := updateProgress_level { s with board := b1 }
      (List.replicate (b1.countP isFull) (List.replicate COLS 0) ++
        b1.filter (fun row => !isFull row)) (b1.countP isFull) hi.base.level hi.base.interval
    refine ⟨?_, ?_, updateProgress_score _ _ _ hk hi.base.score, ?_, hlv.1, hlv.2⟩
    · rw [updateProgress_board]; exact compacted_wf hwf1
    · rw [updateProgress_board]; exact compacted_noFull b1
    · rw [hpc.2.1]; exact hi.base.next
  obtain ⟨s1, hs1, hinv, _, hlines, _, _⟩ := spawnPiece_inv hbase r1 r2
  refine ⟨s1, ?_, hinv, ?_, ?_⟩
  · unfold lockPiece
    rw [hb1]
    simp only []
    rw [hcl]
    simp only []
    exact hs1
  · rw [hlines, updateProgress_lines]
    simp
  · rw [hlines, updateProgress_lines]
    show s.lines + b1.countP isFull ≤ s.lines + 4
    omega

theorem lockPiece_inv {s s1 : State} (hi : Inv s) (hrun : s.gameRunning = true) {fuel : Nat}
    {r1 r2 : Fin SHAPES.length} (h : lockPiece fuel s r1 r2 = .ok s1) :
    Inv s1 ∧ s.lines ≤ s1.lines ∧ s1.lines ≤ s.lines + 4 := by
  obtain ⟨p, hp, hor⟩ := hi.cur
  have hfree := hi.free hrun p hp
  obtain ⟨b1, hb1, hwf1, hc1⟩ := placePiece_ok hi.base.wf hp hfree
  obtain ⟨s2, hs2, hinv, hl1, hl2⟩ :=
    lockPiece_total hi hrun (show 2 * ROWS + 1 ≤ fuel + (2 * ROWS + 1) by omega) r1 r2
  suffices s1 = s2 by rw [this]; exact ⟨hinv, hl1, hl2⟩
  unfold lockPiece at h hs2
  rw [hb1] at h hs2
  simp only [] at h hs2
  cases hcl : clearLines fuel { s with board := b1 } with
  | error e => rw [hcl] at h; simp at h
  | ok s3 =>
    have e1 := clearLines_eq_of_ok (s := { s with board := b1 }) hwf1 hcl
    have e2 := clearLines_of_wf (s := { s with board := b1 }) hwf1
      (show 2 * ROWS + 1 ≤ fuel + (2 * ROWS + 1) by omega)
    rw [hcl] at h
    rw [e2] at hs2
    simp only [] at h hs2
    rw [e1] at h
    rw [h] at hs2
    simp only [Except.ok.injEq] at hs2
    exact hs2

theorem movePiece_result {s s1 : State} {dx dy : Int} {r : Option Bool}
    (h : movePiece s dx dy = .ok (s1, r)) :
    (s1 = s ∧ r ≠ some true) ∨
      ∃ p, s.currentPiece = some p ∧ collide s.board p dx dy = .ok false ∧ r = some true ∧
        s1 = { s with currentPiece := some { p with x := p.x + dx, y := p.y + dy } } := by
  unfold movePiece at h
  cases hp : s.currentPiece with
  | none =>
    rw [hp] at h
    simp only [Except.ok.injEq, Prod.mk.injEq] at h
    exact Or.inl ⟨h.1.symm, by rw [← h.2]; simp⟩
  | some p =>
    rw [hp] at h
    simp only [] at h
    split at h
    · simp only [Except.ok.injEq, Prod.mk.injEq] at h
      exact Or.inl ⟨h.1.symm, by rw [← h.2]; simp⟩
    · cases hc : collide s.board p dx dy with
      | error e => rw [hc] at h; simp at h
      | ok b =>
        rw [hc] at h
        cases b with
        | true =>
          simp only [Except.ok.injEq, Prod.mk.injEq] at h
          exact Or.inl ⟨h.1.symm, by rw [← h.2]; simp⟩
        | false =>
          simp only [Except.ok.injEq, Prod.mk.injEq] at h
          exact Or.inr ⟨p, rfl, hc, h.2.symm, h.1.symm⟩

theorem inv_moved {s : State} (hi : Inv s) {p : Piece} {dx dy : Int}
    (hp : s.currentPiece = some p) (hc : collide s.board p dx dy = .ok false) :
    Inv { s with currentPiece := some { p with x := p.x + dx, y := p.y + dy } } := by
  obtain ⟨q, hq, hor⟩ := hi.cur
  rw [hp] at hq
  cases hq
  refine ⟨⟨hi.base.wf, hi.base.noFull, hi.base.score, hi.base.next, hi.base.level,
    hi.base.interval⟩, ⟨_, rfl, hor⟩, ?_⟩
  intro _ q hq
  simp only [Option.some.injEq] at hq
  rw [← hq]
  show collide s.board { p with x := p.x + dx, y := p.y + dy } 0 0 = .ok false
  rw [collide_moved hi.base.wf, zero_add, zero_add]
  exact hc

theorem movePiece_inv {s s1 : State} {dx dy : Int} {r : Option Bool} (hi : Inv s)
    (h : movePiece s dx dy = .ok (s1, r)) :
    Inv s1 ∧ s1.lines = s.lines ∧ s1.gameRunning = s.gameRunning ∧
      s1.gamePaused = s.gamePaused := by
  rcases movePiece_result h with ⟨h1, _⟩ | ⟨p, hp, hc, _, h1⟩
  · rw [h1]; exact ⟨hi, rfl, rfl, rfl⟩
  · rw [h1]; exact ⟨inv_moved hi hp hc, rfl, rfl, rfl⟩

theorem dropLoop_inv (fuel : Nat) :
    ∀ (s s1 : State) (d d1 : Nat), Inv s → dropLoop fuel s d = .ok (s1, d1) →
      Inv s1 ∧ s1.lines = s.lines ∧ s1.gameRunning = s.gameRunning ∧
        s1.gamePaused = s.gamePaused := by
  induction fuel with
  | zero => intro s s1 d d1 _ h; simp [dropLoop] at h
  | succ fuel ih =>
    intro s s1 d d1 hi h
    unfold dropLoop at h
    cases hm : movePiece s 0 1 with
    | error e => rw [hm] at h; simp at h
    | ok res =>
      obtain ⟨s2, r⟩ := res
      obtain ⟨hi2, hl2, hr2, hp2⟩ := movePiece_inv hi hm
      rw [hm] at h
      rcases r with _ | _ | _
      · simp only [Except.ok.injEq, Prod.mk.injEq] at h
        rw [← h.1]; exact ⟨hi2, hl2, hr2, hp2⟩
      · simp only [Except.ok.injEq, Prod.mk.injEq] at h
        rw [← h.1]; exact ⟨hi2, hl2, hr2, hp2⟩
      · simp only [] at h
        obtain ⟨hi3, hl3, hr3, hp3⟩ := ih s2 s1 (d + 1) d1 hi2 h
        exact ⟨hi3, by rw [hl3, hl2], by rw [hr3, hr2], by rw [hp3, hp2]⟩

theorem hardDrop_inv {s s1 : State} {fuel : Nat} {r1 r2 : Fin SHAPES.length} (hi : Inv s)
    (h : hardDrop fuel s r1 r2 = .ok s1) :
    Inv s1 ∧ s.lines ≤ s1.lines ∧ s1.lines ≤ s.lines + 4 := by
  unfold hardDrop at h
  split at h
  · simp only [Except.ok.injEq] at h
    rw [← h]; exact ⟨hi, by omega, by omega⟩
  · rename_i hguard
    have hrun : s.gameRunning = true := by
      cases hr : s.gameRunning with
      | true => rfl
      | false => simp [hr] at hguard
    cases hd : dropLoop fuel s 0 with
    | error e => rw [hd] at h; simp at h
    | ok res =>
      obtain ⟨s2, d⟩ := res
      rw [hd] at h
      simp only [] at h
      obtain ⟨hi2, hl2, hr2, _⟩ := dropLoop_inv fuel s s2 0 d hi hd
      have hi3 := inv_score_update hi2 (fun sc => sc + d * 2)
      obtain ⟨hi4, ha, hb⟩ := lockPiece_inv hi3 (by show s2.gameRunning = true; rw [hr2, hrun]) h
      refine ⟨hi4, ?_, ?_⟩
      · rw [← hl2]; exact ha
      · rw [← hl2]; exact hb

theorem gravityTick_inv {s s1 : State} {fuel : Nat} {r1 r2 : Fin SHAPES.length} (hi : Inv s)
    (h : gravityTick fuel s r1 r2 = .ok s1) :
    Inv s1 ∧ s.lines ≤ s1.lines ∧ s1.lines ≤ s.lines + 4 := by
  unfold gravityTick at h
  split at h
  · simp only [Except.ok.injEq] at h
    rw [← h]; exact ⟨hi, by omega, by omega⟩
  · rename_i hguard
    have hrun : s.gameRunning = true := by
      cases hr : s.gameRunning with
      | true => rfl
      | false => simp [hr] at hguard
    cases hm : movePiece s 0 1 with
    | error e => rw [hm] at h; simp at h
    | ok res =>
      obtain ⟨s2, r⟩ := res
      obtain ⟨hi2, hl2, hr2, _⟩ := movePiece_inv hi hm
      rw [hm] at h
      have hlock : lockPiece fuel s2 r1 r2 = .ok s1 →
          Inv s1 ∧ s.lines ≤ s1.lines ∧ s1.lines ≤ s.lines + 4 := by
        intro hl
        obtain ⟨hi4, ha, hb⟩ := lockPiece_inv hi2 (by rw [hr2, hrun]) hl
        rw [hl2] at ha hb
        exact ⟨hi4, ha, hb⟩
      rcases r with _ | _ | _
      · exact hlock h
      · exact hlock h
      · simp only [Except.ok.injEq] at h
        rw [← h]
        exact ⟨hi2, by omega, by omega⟩

theorem softDrop_inv {s s1 : State} (hi : Inv s) (h : softDrop s = .ok s1) :
    Inv s1 ∧ s1.lines = s.lines := by
  unfold softDrop at h
  split at h
  · simp only [Except.ok.injEq] at h
    rw [← h]; exact ⟨hi, rfl⟩
  · cases hm : movePiece s 0 1 with
    | error e => rw [hm] at h; simp at h
    | ok res =>
      obtain ⟨s2, r⟩ := res
      obtain ⟨hi2, hl2, _, _⟩ := movePiece_inv hi hm
      rw [hm] at h
      rcases r with _ | _ | _
      · simp only [Except.ok.injEq] at h
        rw [← h]; exact ⟨hi2, hl2⟩
      · simp only [Except.ok.injEq] at h
        rw [← h]; exact ⟨hi2, hl2⟩
      · simp only [Except.ok.injEq] at h
        rw [← h]
        exact ⟨inv_score_update hi2 (fun sc => sc + 1), hl2⟩

theorem rotateCurrent_inv {s s1 : State} (hi : Inv s) (h : rotateCurrent s = .ok s1) :
    Inv s1 ∧ s1.lines = s.lines := by
  unfold rotateCurrent at h
  split at h
  · simp only [Except.ok.injEq] at h
    rw [← h]; exact ⟨hi, rfl⟩
  · obtain ⟨p, hp, hor⟩ := hi.cur
    rw [hp] at h
    simp only [] at h
    obtain ⟨hn, hsq, hin⟩ := orientations_closed p.shape hor
    have hrot := rotateShape_of_square hsq hn
    rw [rotatePiece_firstFit s.board hi.base.wf p _ hrot] at h
    simp only [Except.ok.injEq] at h
    rw [← h]
    refine ⟨?_, rfl⟩
    have hbase : ∀ q : Piece, Base { s with currentPiece := some q } := fun _ =>
      ⟨hi.base.wf, hi.base.noFull, hi.base.score, hi.base.next, hi.base.level,
        hi.base.interval⟩
    unfold firstFit
    cases hfind : (candidates p (turned p.shape p.shape.length) kickOffsets).find?
        (fits s.board) with
    | none =>
      refine ⟨hbase _, ⟨p, rfl, hor⟩, ?_⟩
      intro hrun q hq
      simp only [Option.getD_none, Option.some.injEq] at hq
      rw [← hq]
      exact hi.free hrun p hp
    | some c =>
      have hmem := List.mem_of_find?_eq_some hfind
      have hfit := List.find?_some hfind
      have hshape : c.shape = turned p.shape p.shape.length := by
        simp only [candidates, List.mem_map] at hmem
        obtain ⟨o, _, rfl⟩ := hmem
        rfl
      refine ⟨hbase _, ⟨c, rfl, by rw [hshape]; exact hin⟩, ?_⟩
      intro _ q hq
      simp only [Option.getD_some, Option.some.injEq] at hq
      rw [← hq]
      show collide s.board c 0 0 = .ok false
      unfold fits at hfit
      rcases collide_ok_of_wf hi.base.wf c 0 0 with hc | hc
      · rw [hc] at hfit; simp at hfit
      · exact hc

theorem pauseGame_inv {s : State} (hi : Inv s) :
    Inv (pauseGame s) ∧ (pauseGame s).lines = s.lines := by
  unfold pauseGame
  split
  · exact ⟨hi, rfl⟩
  · exact ⟨⟨⟨hi.base.wf, hi.base.noFull, hi.base.score, hi.base.next, hi.base.level,
      hi.base.interval⟩, hi.cur, hi.free⟩, rfl⟩

theorem startGame_inv (s : State) (r1 r2 r3 : Fin SHAPES.length) :
    ∃ s1, startGame s r1 r2 r3 = .ok s1 ∧ Inv s1 ∧ s1.lines = 0 ∧ s1.score = some 0 ∧
      s1.board = initBoard := by
  have hbase : Base { s with
      board := initBoard, score := some 0, level := 1, lines := 0, dropInterval := 1000,
      gameRunning := true, gamePaused := false, nextPiece := some (createPiece r1) } :=
    ⟨by show BoardWF initBoard; decide, by show initBoard.countP isFull = 0; decide,
      ⟨0, rfl⟩, ⟨r1, rfl⟩, by show 1 = 0 / 10 + 1; decide,
      by show (1000 : Int) = max 100 (1000 - (((1 : Nat) : Int) - 1) * 50); decide⟩
  obtain ⟨s1, h1, h2, h3, h4, h5, _⟩ := spawnPiece_inv hbase r2 r3
  exact ⟨s1, h1, h2, h4, h5, h3⟩

theorem step_inv {s s1 : State} {fuel : Nat} {a : Action} (hi : Inv s)
    (h : step fuel s a = .ok s1) : Inv s1 := by
  cases a with
  | moveLeft =>
    simp only [step] at h
    split at h
    · simp only [Except.ok.injEq] at h; rw [← h]; exact hi
    · cases hm : movePiece s (-1) 0 with
      | error e => rw [hm] at h; simp at h
      | ok res =>
        obtain ⟨s2, r⟩ := res
        rw [hm] at h
        simp only [Except.ok.injEq] at h
        rw [← h]
        exact (movePiece_inv hi hm).1
  | moveRight =>
    simp only [step] at h
    split at h
    · simp only [Except.ok.injEq] at h; rw [← h]; exact hi
    · cases hm : movePiece s 1 0 with
      | error e => rw [hm] at h; simp at h
      | ok res =>
        obtain ⟨s2, r⟩ := res
        rw [hm] at h
        simp only [Except.ok.injEq] at h
        rw [← h]
        exact (movePiece_inv hi hm).1
  | softDrop => exact (softDrop_inv hi h).1
  | rotate => exact (rotateCurrent_inv hi h).1
  | hardDrop r1 r2 =>
    simp only [step] at h
    split at h
    · simp only [Except.ok.injEq] at h; rw [← h]; exact hi
    · exact (hardDrop_inv hi h).1
  | tick r1 r2 => exact (gravityTick_inv hi h).1
  | pause =>
    simp only [step, Except.ok.injEq] at h
    rw [← h]
    exact (pauseGame_inv hi).1
  | start r1 r2 r3 =>
    obtain ⟨s2, h2, hinv, _⟩ := startGame_inv s r1 r2 r3
    simp only [step] at h
    rw [h2] at h
    simp only [Except.ok.injEq] at h
    rw [← h]
    exact hinv

theorem reachable_inv {s : State} (h : Reachable s) : Inv s := by
  induction h with
  | start s0 s r1 r2 r3 hs =>
    obtain ⟨s2, h2, hinv, _⟩ := startGame_inv s0 r1 r2 r3
    rw [h2] at hs
    simp only [Except.ok.injEq] at hs
    rw [← hs]
    exact hinv
  | step s s1 a fuel _ hstep ih => exact step_inv ih hstep

/-! ## Level and drop interval -/

/-- C6: in every state reachable from `startGame` by any sequence of actions,
`level = floor(lines / 10) + 1` and `dropInterval = max(100, 1000 - 50 * (level - 1))`; so
when `lines = 10 * k` the level is `k + 1` and the interval `max(100, 1000 - 50 * k)`, the
interval is never below 100, and it does not increase as the level increases. -/
theorem level_and_interval (s : State) (h : Reachable s) :
    s.level = s.lines / 10 + 1 ∧
      s.dropInterval = max 100 (1000 - 50 * ((s.level : Int) - 1)) ∧
      (∀ k : Nat, s.lines = 10 * k →
        s.level = k + 1 ∧ s.dropInterval = max 100 (1000 - 50 * (k : Int))) ∧
      100 ≤ s.dropInterval ∧
      (∀ s1, Reachable s1 → s.level ≤ s1.level → s1.dropInterval ≤ s.dropInterval) := by
  have hi := reachable_inv h
  have hl := hi.base.level
  have hd := hi.base.interval
  refine ⟨hl, ?_, ?_, ?_, ?_⟩
  · rw [hd]; congr 1; ring
  · intro k hk
    have hlv : s.level = k + 1 := by rw [hl, hk]; omega
    refine ⟨hlv, ?_⟩
    rw [hd, hlv]
    congr 1
    push_cast
    ring
  · rw [hd]; exact le_max_left _ _
  · intro s1 h1 hle
    have hd1 := (reachable_inv h1).base.interval
    rw [hd, hd1]
    have : ((s.level : Int)) ≤ (s1.level : Int) := by exact_mod_cast hle
    omega

theorem level_and_interval_witness :
    Reachable startedState ∧ startedState.level = startedState.lines / 10 + 1 ∧
      startedState.dropInterval = max 100 (1000 - 50 * ((startedState.level : Int) - 1)) :=
  ⟨Reachable.start idleState startedState ⟨1, by decide⟩ ⟨1, by decide⟩ ⟨0, by decide⟩
      (by decide),
    (level_and_interval startedState
      (Reachable.start idleState startedState ⟨1, by decide⟩ ⟨1, by decide⟩ ⟨0, by decide⟩
        (by decide))).1,
    (level_and_interval startedState
      (Reachable.start idleState startedState ⟨1, by decide⟩ ⟨1, by decide⟩ ⟨0, by decide⟩
        (by decide))).2.1⟩

/-! ## Cells written by `placePiece` -/

theorem cellAt_set (board : Board) (row : List Nat) (r c : Nat) (v : Nat)
    (hrow : board[r]? = some row) (hc : c < row.length) (r1 c1 : Nat) :
    cellAt (board.set r (row.set c v)) r1 c1 =
      if r1 = r ∧ c1 = c then v else cellAt board r1 c1 := by
  unfold cellAt
  simp only [List.getD_eq_getElem?_getD]
  by_cases hr : r1 = r
  · subst hr
    have hlt : r1 < board.length := by
      rcases Nat.lt_or_ge r1 board.length with h | h
      · exact h
      · rw [List.getElem?_eq_none h] at hrow; cases hrow
    rw [List.getElem?_set_self hlt, hrow]
    simp only [Option.getD_some]
    by_cases hcc : c1 = c
    · subst hcc
      rw [List.getElem?_set_self hc]
      simp
    · rw [List.getElem?_set_ne (Ne.symm hcc)]
      simp [hcc]
  · rw [List.getElem?_set_ne (Ne.symm hr)]
    simp [hr]

theorem writeCell_cells {board b1 : Board} {r c : Int} {v : Nat}
    (h : writeCell board r c v = .ok b1) (r1 c1 : Nat) :
    cellAt b1 r1 c1 = if (r1 : Int) = r ∧ (c1 : Int) = c then v else cellAt board r1 c1 := by
  unfold writeCell at h
  split at h
  · simp at h
  · rename_i hneg
    cases hrow : board[r.toNat]? with
    | none => rw [hrow] at h; simp at h
    | some row =>
      rw [hrow] at h
      simp only [] at h
      split at h
      · rename_i hc
        simp only [Except.ok.injEq] at h
        rw [← h, cellAt_set board row _ _ v hrow hc]
        have e : (r1 = r.toNat ∧ c1 = c.toNat) ↔ ((r1 : Int) = r ∧ (c1 : Int) = c) := by omega
        simp only [e]
      · simp at h

theorem placeRow_cells (piece : Piece) (y : Nat) (cells : List Nat) :
    ∀ (x0 : Nat) (board b1 : Board), placeRow piece y cells x0 board = .ok b1 →
      ∀ r c : Nat,
        ((∃ (i : Nat) (v : Nat), cells[i]? = some v ∧ v ≠ 0 ∧ piece.y + y = r ∧
            piece.x + ((x0 + i : Nat) : Int) = c) → cellAt b1 r c = piece.type) ∧
        ((¬ ∃ (i : Nat) (v : Nat), cells[i]? = some v ∧ v ≠ 0 ∧ piece.y + y = r ∧
            piece.x + ((x0 + i : Nat) : Int) = c) → cellAt b1 r c = cellAt board r c) := by
  induction cells with
  | nil =>
    intro x0 board b1 h r c
    simp only [placeRow, Except.ok.injEq] at h
    subst h
    simp
  | cons cell rest ih =>
    intro x0 board b1 h r c
    -- covering by the whole row, split into the first cell and the rest
    have hsplit : (∃ (i : Nat) (v : Nat), (cell :: rest)[i]? = some v ∧ v ≠ 0 ∧
          piece.y + y = r ∧ piece.x + ((x0 + i : Nat) : Int) = c) ↔
        ((cell ≠ 0 ∧ piece.y + y = r ∧ piece.x + (x0 : Int) = c) ∨
          ∃ (i : Nat) (v : Nat), rest[i]? = some v ∧ v ≠ 0 ∧ piece.y + y = r ∧
            piece.x + ((x0 + 1 + i : Nat) : Int) = c) := by
      constructor
      · rintro ⟨i, v, h1, h2, h3, h4⟩
        cases i with
        | zero =>
          simp only [List.getElem?_cons_zero, Option.some.injEq] at h1
          subst h1
          exact Or.inl ⟨h2, h3, by simpa using h4⟩
        | succ j =>
          refine Or.inr ⟨j, v, by simpa using h1, h2, h3, ?_⟩
          have e : x0 + 1 + j = x0 + (j + 1) := by omega
          rw [e]; exact h4
      · rintro (⟨h2, h3, h4⟩ | ⟨j, v, h1, h2, h3, h4⟩)
        · exact ⟨0, cell, by simp, h2, h3, by simpa using h4⟩
        · refine ⟨j + 1, v, by simpa using h1, h2, h3, ?_⟩
          have e : x0 + (j + 1) = x0 + 1 + j := by omega
          rw [e]; exact h4
    rw [hsplit]
    unfold placeRow at h
    by_cases hcell : cell ≠ 0
    · rw [if_pos hcell] at h
      simp only [] at h
      by_cases hy : piece.y + (y : Int) ≥ 0
      · rw [if_pos hy] at h
        cases hw : writeCell board (piece.y + y) (piece.x + x0) piece.type with
        | error e => rw [hw] at h; simp at h
        | ok b2 =>
          rw [hw] at h
          simp only [] at h
          obtain ⟨ih1, ih2⟩ := ih (x0 + 1) b2 b1 h r c
          have hcell2 := writeCell_cells hw r c
          constructor
          · rintro (⟨_, h3, h4⟩ | hrest)
            · by_cases hr : ∃ (i : Nat) (v : Nat), rest[i]? = some v ∧ v ≠ 0 ∧
                  piece.y + y = r ∧ piece.x + ((x0 + 1 + i : Nat) : Int) = c
              · exact ih1 hr
              · rw [ih2 hr, hcell2, if_pos ⟨h3.symm, h4.symm⟩]
            · exact ih1 hrest
          · intro hno
            have hno1 : ¬ (piece.y + y = r ∧ piece.x + (x0 : Int) = c) := fun hh =>
              hno (Or.inl ⟨hcell, hh.1, hh.2⟩)
            have hno2 := fun hh => hno (Or.inr hh)
            rw [ih2 hno2, hcell2, if_neg (fun hh => hno1 ⟨hh.1.symm, hh.2.symm⟩)]
      · rw [if_neg hy] at h
        obtain ⟨ih1, ih2⟩ := ih (x0 + 1) board b1 h r c
        constructor
        · rintro (⟨_, h3, _⟩ | hrest)
          · omega
          · exact ih1 hrest
        · intro hno
          exact ih2 (fun hh => hno (Or.inr hh))
    · rw [if_neg hcell] at h
      obtain ⟨ih1, ih2⟩ := ih (x0 + 1) board b1 h r c
      constructor
      · rintro (⟨h2, _, _⟩ | hrest)
        · exact absurd h2 hcell
        · exact ih1 hrest
      · intro hno
        exact ih2 (fun hh => hno (Or.inr hh))

theorem placeRows_cells (piece : Piece) (rows : List (List Nat)) :
    ∀ (y0 : Nat) (board b1 : Board), placeRows piece rows y0 board = .ok b1 →
      ∀ r c : Nat,
        ((∃ (j i : Nat) (row : List Nat) (v : Nat), rows[j]? = some row ∧ row[i]? = some v ∧
            v ≠ 0 ∧ piece.y + ((y0 + j : Nat) : Int) = r ∧ piece.x + (i : Int) = c) →
          cellAt b1 r c = piece.type) ∧
        ((¬ ∃ (j i : Nat) (row : List Nat) (v : Nat), rows[j]? = some row ∧ row[i]? = some v ∧
            v ≠ 0 ∧ piece.y + ((y0 + j : Nat) : Int) = r ∧ piece.x + (i : Int) = c) →
          cellAt b1 r c = cellAt board r c) := by
  induction rows with
  | nil =>
    intro y0 board b1 h r c
    simp only [placeRows, Except.ok.injEq] at h
    subst h
    simp
  | cons row rest ih =>
    intro y0 board b1 h r c
    have hsplit : (∃ (j i : Nat) (rw : List Nat) (v : Nat), (row :: rest)[j]? = some rw ∧
          rw[i]? = some v ∧ v ≠ 0 ∧ piece.y + ((y0 + j : Nat) : Int) = r ∧
          piece.x + (i : Int) = c) ↔
        ((∃ (i : Nat) (v : Nat), row[i]? = some v ∧ v ≠ 0 ∧ piece.y + (y0 : Int) = r ∧
            piece.x + ((0 + i : Nat) : Int) = c) ∨
          ∃ (j i : Nat) (rw : List Nat) (v : Nat), rest[j]? = some rw ∧ rw[i]? = some v ∧
            v ≠ 0 ∧ piece.y + ((y0 + 1 + j : Nat) : Int) = r ∧ piece.x + (i : Int) = c) := by
      constructor
      · rintro ⟨j, i, rw, v, h1, h2, h3, h4, h5⟩
        cases j with
        | zero =>
          simp only [List.getElem?_cons_zero, Option.some.injEq] at h1
          subst h1
          exact Or.inl ⟨i, v, h2, h3, by simpa using h4, by simpa using h5⟩
        | succ k =>
          refine Or.inr ⟨k, i, rw, v, by simpa using h1, h2, h3, ?_, h5⟩
          have e : y0 + 1 + k = y0 + (k + 1) := by omega
          rw [e]; exact h4
      · rintro (⟨i, v, h2, h3, h4, h5⟩ | ⟨k, i, rw, v, h1, h2, h3, h4, h5⟩)
        · exact ⟨0, i, row, v, by simp, h2, h3, by simpa using h4, by simpa using h5⟩
        · refine ⟨k + 1, i, rw, v, by simpa using h1, h2, h3, ?_, h5⟩
          have e : y0 + (k + 1) = y0 + 1 + k := by omega
          rw [e]; exact h4
    rw [hsplit]
    unfold placeRows at h
    cases hp : placeRow piece y0 row 0 board with
    | error e => rw [hp] at h; simp at h
    | ok b2 =>
      rw [hp] at h
      simp only [] at h
      obtain ⟨ih1, ih2⟩ := ih (y0 + 1) b2 b1 h r c
      obtain ⟨hr1, hr2⟩ := placeRow_cells piece y0 row 0 board b2 hp r c
      constructor
      · rintro (hfirst | hrest)
        · by_cases hr : ∃ (j i : Nat) (rw : List Nat) (v : Nat), rest[j]? = some rw ∧
              rw[i]? = some v ∧ v ≠ 0 ∧ piece.y + ((y0 + 1 + j : Nat) : Int) = r ∧
              piece.x + (i : Int) = c
          · exact ih1 hr
          · rw [ih2 hr]; exact hr1 hfirst
        · exact ih1 hrest
      · intro hno
        rw [ih2 (fun hh => hno (Or.inr hh))]
        exact hr2 (fun hh => hno (Or.inl hh))

theorem placePiece_cells {s : State} {piece : Piece} {b1 : Board}
    (hcur : s.currentPiece = some piece) (h : placePiece s = .ok { s with board := b1 })
    (r c : Nat) :
    (Covers piece r c → cellAt b1 r c = piece.type) ∧
      (¬ Covers piece r c → cellAt b1 r c = cellAt s.board r c) := by
  unfold placePiece at h
  rw [hcur] at h
  simp only [] at h
  cases hp : placeRows piece piece.shape 0 s.board with
  | error e => rw [hp] at h; simp at h
  | ok b2 =>
    rw [hp] at h
    simp only [Except.ok.injEq] at h
    have hb : b2 = b1 := congrArg State.board h
    subst hb
    have := placeRows_cells piece piece.shape 0 s.board b2 hp r c
    simp only [Nat.zero_add] at this
    exact this

/-! ## Hard drop -/

theorem collide_below {board : Board} (hwf : BoardWF board) {piece : Piece}
    (hocc : ∃ (y x : Nat) (row : List Nat) (v : Nat),
      piece.shape[y]? = some row ∧ row[x]? = some v ∧ v ≠ 0) :
    collide board piece 0 (((ROWS : Int) - piece.y).toNat : Nat) = .ok true := by
  obtain ⟨y, x, row, v, h1, h2, h3⟩ := hocc
  rw [collide_true_iff hwf]
  refine ⟨y, x, row, v, h1, h2, h3, Or.inr (Or.inr (Or.inl ?_))⟩
  omega

theorem drop_distance_exists {board : Board} (hwf : BoardWF board) {piece : Piece}
    (hocc : ∃ (y x : Nat) (row : List Nat) (v : Nat),
      piece.shape[y]? = some row ∧ row[x]? = some v ∧ v ≠ 0)
    (hfree : collide board piece 0 0 = .ok false) :
    ∃ d : Nat, (∀ j : Nat, j ≤ d → collide board piece 0 j = .ok false) ∧
      collide board piece 0 ((d : Int) + 1) = .ok true ∧
      d + 1 ≤ ((ROWS : Int) - piece.y).toNat := by
  have hex : ∃ n : Nat, collide board piece 0 (n : Int) = .ok true :=
    ⟨_, collide_below hwf hocc⟩
  have hpos : Nat.find hex ≠ 0 := by
    intro h0
    have := Nat.find_spec hex
    rw [h0] at this
    simp only [Nat.cast_zero] at this
    rw [hfree] at this
    cases this
  obtain ⟨d, hd⟩ := Nat.exists_eq_succ_of_ne_zero hpos
  refine ⟨d, ?_, ?_, ?_⟩
  · intro j hj
    have hlt : j < Nat.find hex := by omega
    have := Nat.find_min hex hlt
    rcases collide_ok_of_wf hwf piece 0 j with h | h
    · exact absurd h this
    · exact h
  · have := Nat.find_spec hex
    rw [hd] at this
    simpa using this
  · have := Nat.find_min' hex (collide_below hwf hocc)
    omega

theorem movePiece_down {s : State} {piece : Piece} (hrun : s.gameRunning = true)
    (hpause : s.gamePaused = false) (hcur : s.currentPiece = some piece) :
    (collide s.board piece 0 1 = .ok false →
      movePiece s 0 1 =
        .ok ({ s with currentPiece := some { piece with x := piece.x + 0, y := piece.y + 1 } },
          some true)) ∧
    (collide s.board piece 0 1 = .ok true → movePiece s 0 1 = .ok (s, some false)) := by
  constructor <;> intro h <;> simp [movePiece, hcur, hrun, hpause, h]

theorem dropLoop_exact (d : Nat) :
    ∀ (fuel : Nat) (s : State) (piece : Piece) (dist : Nat), BoardWF s.board →
      s.gameRunning = true → s.gamePaused = false → s.currentPiece = some piece →
      (∀ j : Nat, j ≤ d → collide s.board piece 0 j = .ok false) →
      collide s.board piece 0 ((d : Int) + 1) = .ok true → d + 1 ≤ fuel →
      dropLoop fuel s dist =
        .ok ({ s with currentPiece := some { piece with y := piece.y + d } }, dist + d) := by
  induction d with
  | zero =>
    intro fuel s piece dist hwf hrun hpause hcur _ htrue hfuel
    obtain ⟨f, rfl⟩ : ∃ f, fuel = f + 1 := ⟨fuel - 1, by omega⟩
    simp only [Nat.cast_zero, zero_add] at htrue
    unfold dropLoop
    rw [(movePiece_down hrun hpause hcur).2 htrue]
    simp only [Nat.cast_zero, add_zero, Nat.add_zero]
    have : ({ s with currentPiece := some { piece with y := piece.y } } : State) = s := by
      cases s; simp only at hcur; subst hcur; rfl
    rw [this]
  | succ d ih =>
    intro fuel s piece dist hwf hrun hpause hcur hfalse htrue hfuel
    obtain ⟨f, rfl⟩ : ∃ f, fuel = f + 1 := ⟨fuel - 1, by omega⟩
    have h1 : collide s.board piece 0 1 = .ok false := by
      have := hfalse 1 (by omega)
      simpa using this
    unfold dropLoop
    rw [(movePiece_down hrun hpause hcur).1 h1]
    simp only []
    have hstep := ih f
      { s with currentPiece := some { piece with x := piece.x + 0, y := piece.y + 1 } }
      { piece with x := piece.x + 0, y := piece.y + 1 } (dist + 1) hwf hrun hpause rfl
      (by
        intro j hj
        show collide s.board { piece with x := piece.x + 0, y := piece.y + 1 } 0 j = .ok false
        rw [collide_moved hwf]
        have := hfalse (j + 1) (by omega)
        simpa using this)
      (by
        show collide s.board { piece with x := piece.x + 0, y := piece.y + 1 } 0
          ((d : Int) + 1) = .ok true
        rw [collide_moved hwf]
        have e : ((d + 1 : Nat) : Int) + 1 = (d : Int) + 1 + 1 := by push_cast; ring
        rw [e] at htrue
        simpa using htrue)
      (by omega)
    rw [hstep]
    have e1 : piece.y + 1 + (d : Int) = piece.y + ((d + 1 : Nat) : Int) := by push_cast; ring
    have e2 : dist + 1 + d = dist + (d + 1) := by omega
    simp only [add_zero, e1, e2]

theorem spawnPiece_ok {s : State} (hwf : BoardWF s.board) (r1 r2 : Fin SHAPES.length) :
    ∃ s1 cur, spawnPiece s r1 r2 = .ok s1 ∧ s1.currentPiece = some cur ∧
      (∀ np, s.nextPiece = some np → cur = np) ∧
      (s.nextPiece = none → cur = createPiece r1) ∧
      s1.nextPiece = some (createPiece r2) ∧ s1.board = s.board ∧ s1.score = s.score ∧
      s1.lines = s.lines ∧ s1.level = s.level ∧ s1.dropInterval = s.dropInterval ∧
      (collide s.board cur 0 0 = .ok true → s1.gameRunning = false ∧ s1.gamePaused = false) ∧
      (collide s.board cur 0 0 = .ok false →
        s1.gameRunning = s.gameRunning ∧ s1.gamePaused = s.gamePaused) := by
  have key : ∀ cur : Piece,
      (∀ np, s.nextPiece = some np → cur = np) → (s.nextPiece = none → cur = createPiece r1) →
      (match collide s.board cur 0 0 with
        | .error e => .error e
        | .ok true => .ok (gameOver
            { s with currentPiece := some cur, nextPiece := some (createPiece r2) })
        | .ok false => (.ok
            { s with currentPiece := some cur, nextPiece := some (createPiece r2) } :
              Except Fault State)) = spawnPiece s r1 r2 →
      ∃ s1 cur, spawnPiece s r1 r2 = .ok s1 ∧ s1.currentPiece = some cur ∧
        (∀ np, s.nextPiece = some np → cur = np) ∧
        (s.nextPiece = none → cur = createPiece r1) ∧
        s1.nextPiece = some (createPiece r2) ∧ s1.board = s.board ∧ s1.score = s.score ∧
        s1.lines = s.lines ∧ s1.level = s.level ∧ s1.dropInterval = s.dropInterval ∧
        (collide s.board cur 0 0 = .ok true → s1.gameRunning = false ∧ s1.gamePaused = false) ∧
        (collide s.board cur 0 0 = .ok false →
          s1.gameRunning = s.gameRunning ∧ s1.gamePaused = s.gamePaused) := by
    intro cur h1 h2 heq
    rcases collide_ok_of_wf hwf cur 0 0 with hc | hc
    · rw [hc] at heq
      refine ⟨_, cur, heq.symm, rfl, h1, h2, rfl, rfl, rfl, rfl, rfl, rfl, ?_, ?_⟩
      · intro _; exact ⟨rfl, rfl⟩
      · intro h; rw [hc] at h; cases h
    · rw [hc] at heq
      refine ⟨_, cur, heq.symm, rfl, h1, h2, rfl, rfl, rfl, rfl, rfl, rfl, ?_, ?_⟩
      · intro h; rw [hc] at h; cases h
      · intro _; exact ⟨rfl, rfl⟩
  have hcases : s.nextPiece = none ∨ ∃ np, s.nextPiece = some np := by
    cases s.nextPiece with
    | none => exact Or.inl rfl
    | some np => exact Or.inr ⟨np, rfl⟩
  rcases hcases with hn | ⟨np, hn⟩
  · apply key (createPiece r1)
    · intro np h; rw [hn] at h; cases h
    · intro _; rfl
    · unfold spawnPiece; rw [hn]; try rfl
  · apply key np
    · intro np1 h; rw [hn] at h; cases h; rfl
    · intro h; rw [hn] at h; cases h
    · unfold spawnPiece; rw [hn]; try rfl

/-- C8: on a `ROWS × COLS` board `spawnPiece` makes the previous next piece the current
piece and draws a new next piece; if the new current piece collides at its spawn origin the
game is over (`gameRunning` and `gamePaused` are `false`), and otherwise both flags are left
unchanged; the board, score, lines, level and drop interval are unchanged in both cases.
While the game is not running, `movePiece` and `hardDrop` change nothing. -/
theorem spawnPiece_game_over (s : State) (hwf : BoardWF s.board) (r1 r2 : Fin SHAPES.length) :
    (∃ s1 cur, spawnPiece s r1 r2 = .ok s1 ∧ s1.currentPiece = some cur ∧
      (∀ np, s.nextPiece = some np → cur = np) ∧
      s1.nextPiece = some (createPiece r2) ∧ s1.board = s.board ∧ s1.score = s.score ∧
      (collide s.board cur 0 0 = .ok true →
        s1.gameRunning = false ∧ s1.gamePaused = false ∧
        (∀ dx dy, movePiece s1 dx dy = .ok (s1, none)) ∧
        (∀ fuel q1 q2, hardDrop fuel s1 q1 q2 = .ok s1)) ∧
      (collide s.board cur 0 0 = .ok false →
        s1.gameRunning = s.gameRunning ∧ s1.gamePaused = s.gamePaused)) ∧
    (∀ t : State, t.gameRunning = false →
      (∀ dx dy, movePiece t dx dy = .ok (t, none)) ∧
      (∀ fuel q1 q2, hardDrop fuel t q1 q2 = .ok t)) := by
  have noop : ∀ t : State, t.gameRunning = false →
      (∀ dx dy, movePiece t dx dy = .ok (t, none)) ∧
      (∀ fuel q1 q2, hardDrop fuel t q1 q2 = .ok t) := by
    intro t ht
    constructor
    · intro dx dy
      unfold movePiece
      cases t.currentPiece with
      | none => rfl
      | some p => simp [ht]
    · intro fuel q1 q2
      simp [hardDrop, ht]
  refine ⟨?_, noop⟩
  obtain ⟨s1, cur, h1, h2, h3, _, h5, h6, h7, _, _, _, h8, h9⟩ := spawnPiece_ok hwf r1 r2
  refine ⟨s1, cur, h1, h2, h3, h5, h6, h7, ?_, h9⟩
  intro hc
  obtain ⟨ha, hb⟩ := h8 hc
  exact ⟨ha, hb, (noop s1 ha).1, (noop s1 ha).2⟩

theorem spawnPiece_game_over_witness :
    BoardWF initBoard ∧
      ∃ s1 cur, spawnPiece startedState ⟨2, by decide⟩ ⟨3, by decide⟩ = .ok s1 ∧
        s1.currentPiece = some cur ∧
        (∀ np, startedState.nextPiece = some np → cur = np) :=
  ⟨by decide,
    (spawnPiece_game_over startedState (by decide) ⟨2, by decide⟩ ⟨3, by decide⟩).1.elim
      fun s1 h => h.elim fun cur h => ⟨s1, cur, h.1, h.2.1, h.2.2.1⟩⟩

/-- C7: in a running, unpaused state with a `ROWS × COLS` board whose current piece has an
occupied cell and does not collide, the drop loop of `hardDrop` terminates with the piece
moved down by exactly `d` rows, `x` and shape unchanged, where `d` is the least number with
`collide(board, piece, 0, d + 1)`; then `2 * d` is added to the score, the piece is written
into the board at that position, full rows are cleared, and a new piece is spawned, all
within the same call. -/
theorem hardDrop_distance (s : State) (piece : Piece) (fuel : Nat)
    (r1 r2 : Fin SHAPES.length) (hwf : BoardWF s.board) (hrun : s.gameRunning = true)
    (hpause : s.gamePaused = false) (hcur : s.currentPiece = some piece)
    (hocc : ∃ (y x : Nat) (row : List Nat) (v : Nat),
      piece.shape[y]? = some row ∧ row[x]? = some v ∧ v ≠ 0)
    (hfree : collide s.board piece 0 0 = .ok false)
    (hfuel : 2 * ROWS + 1 ≤ fuel) (hfuel2 : ((ROWS : Int) - piece.y).toNat ≤ fuel) :
    ∃ d : Nat,
      (∀ j : Nat, j ≤ d → collide s.board piece 0 j = .ok false) ∧
      collide s.board piece 0 ((d : Int) + 1) = .ok true ∧
      dropLoop fuel s 0 =
        .ok ({ s with currentPiece := some { piece with y := piece.y + d } }, d) ∧
      ∃ b1 s1 cur,
        placePiece { s with currentPiece := some { piece with y := piece.y + d } } =
          .ok { s with currentPiece := some { piece with y := piece.y + d }, board := b1 } ∧
        BoardWF b1 ∧
        (∀ r c : Nat, (Covers { piece with y := piece.y + d } r c → cellAt b1 r c = piece.type) ∧
          (¬ Covers { piece with y := piece.y + d } r c → cellAt b1 r c = cellAt s.board r c)) ∧
        hardDrop fuel s r1 r2 = .ok s1 ∧
        s1.board = List.replicate (b1.countP isFull) (List.replicate COLS 0) ++
          b1.filter (fun row => !isFull row) ∧
        s1.score = (updateProgress { s with score := s.score.map fun sc => sc + d * 2 } b1
          (b1.countP isFull)).score ∧
        s1.lines = s.lines + b1.countP isFull ∧
        s1.currentPiece = some cur ∧ (∀ np, s.nextPiece = some np → cur = np) ∧
        s1.nextPiece = some (createPiece r2) := by
  obtain ⟨d, hfalse, htrue, hbound⟩ := drop_distance_exists hwf hocc hfree
  have hloop := dropLoop_exact d fuel s piece 0 hwf hrun hpause hcur hfalse htrue (by omega)
  rw [Nat.zero_add] at hloop
  refine ⟨d, hfalse, htrue, hloop, ?_⟩
  have hfree_d : collide s.board { piece with y := piece.y + d } 0 0 = .ok false := by
    have h := collide_moved hwf piece 0 d 0 0
    simp only [add_zero, zero_add] at h
    rw [h]
    exact hfalse d (le_refl d)
  obtain ⟨b1, hb1, hwf1, _⟩ := placePiece_ok
    (s := { s with currentPiece := some { piece with y := piece.y + d },
                   score := s.score.map fun sc => sc + d * 2 })
    hwf (show _ = some { piece with y := piece.y + d } from rfl) hfree_d
  have hplace : placePiece { s with currentPiece := some { piece with y := piece.y + d } } =
      .ok { s with currentPiece := some { piece with y := piece.y + d }, board := b1 } := by
    unfold placePiece at hb1 ⊢
    simp only [] at hb1 ⊢
    cases hp : placeRows { piece with y := piece.y + d } piece.shape 0 s.board with
    | error e => rw [hp] at hb1; simp at hb1
    | ok b2 =>
      rw [hp] at hb1
      simp only [Except.ok.injEq] at hb1
      have : b2 = b1 := congrArg State.board hb1
      rw [this]
  have hcl := clearLines_of_wf
    (s := { s with currentPiece := some { piece with y := piece.y + d },
                   score := s.score.map fun sc => sc + d * 2, board := b1 }) hwf1 hfuel
  obtain ⟨s1, cur, hs1, hc1, hc2, _, hc4, hc5, hc6, hc7, _, _, _, _⟩ := spawnPiece_ok
    (s := updateProgress
      { s with currentPiece := some { piece with y := piece.y + d },
               score := s.score.map fun sc => sc + d * 2, board := b1 }
      (List.replicate (b1.countP isFull) (List.replicate COLS 0) ++
        b1.filter (fun row => !isFull row)) (b1.countP isFull))
    (by rw [updateProgress_board]; exact compacted_wf hwf1) r1 r2
  refine ⟨b1, s1, cur, hplace, hwf1, ?_, ?_, ?_, ?_, ?_, hc1, ?_, hc4⟩
  · intro r c
    exact placePiece_cells (s := { s with currentPiece := some { piece with y := piece.y + d } })
      rfl hplace r c
  · have hguard : ¬ ((s.currentPiece.isNone || !s.gameRunning || s.gamePaused) = true) := by
      simp [hcur, hrun, hpause]
    unfold hardDrop
    rw [if_neg hguard, hloop]
    simp only []
    unfold lockPiece
    rw [hb1]
    simp only []
    rw [hcl]
    simp only []
    exact hs1
  · rw [hc5, updateProgress_board]
  · rw [hc6]
    unfold updateProgress
    split
    · simp only []
      split <;> rfl
    · rfl
  · rw [hc7, updateProgress_lines]
  · intro np hnp
    apply hc2
    rw [(updateProgress_pieces _ _ _).2.1]
    exact hnp

theorem hardDrop_distance_witness :
    BoardWF startedState.board ∧ startedState.gameRunning = true ∧
      startedState.gamePaused = false ∧ startedState.currentPiece = some pieceO ∧
      collide startedState.board pieceO 0 0 = .ok false ∧
      ∃ d : Nat, collide startedState.board pieceO 0 ((d : Int) + 1) = .ok true ∧
        dropLoop 41 startedState 0 =
          .ok ({ startedState with currentPiece := some { pieceO with y := pieceO.y + d } }, d) :=
  ⟨by decide, rfl, rfl, rfl, by decide,
    (hardDrop_distance startedState pieceO 41 ⟨2, by decide⟩ ⟨3, by decide⟩ (by decide) rfl rfl
      rfl ⟨0, 0, [2, 2], 2, rfl, rfl, by decide⟩ (by decide) (by decide) (by decide)).elim
      fun d h => ⟨d, h.2.1, h.2.2.1⟩⟩

/-! ## The O-piece scenario -/

theorem spawn_on_scenarioBoard :
    ∀ t : Fin SHAPES.length, collide scenarioBoard (createPiece t) 0 0 = .ok false := by
  decide

theorem scenario_eval (t r1 r2 : Fin SHAPES.length) :
    scenario (2 * ROWS + 1) t r1 r2 =
      .ok { board := scenarioBoard, currentPiece := some (createPiece t),
            nextPiece := some (createPiece r2), score := some 36, level := 1, lines := 0,
            dropInterval := 1000, gameRunning := true, gamePaused := false } := by
  have hlock : scenario (2 * ROWS + 1) t r1 r2 =
      spawnPiece { board := scenarioBoard, currentPiece := some { pieceO with x := 1, y := 18 },
                   nextPiece := some (createPiece t), score := some 36, level := 1, lines := 0,
                   dropInterval := 1000, gameRunning := true, gamePaused := false } r1 r2 := rfl
  rw [hlock]
  unfold spawnPiece
  simp only []
  rw [spawn_on_scenarioBoard t]

theorem leftmost_is_zero : IsLeftmostValid initBoard { pieceO with y := 18 } 0 := by
  constructor
  · decide
  · intro x1 hx1 hfree
    have hwf : BoardWF initBoard := by decide
    have hnb := (collide_false_iff hwf _ 0 0).mp hfree
    apply hnb
    refine ⟨0, 0, [2, 2], 2, rfl, rfl, by decide, Or.inl ?_⟩
    show x1 + ((0 : Nat) : Int) + 0 < 0
    omega

theorem leftmost_unique {x0 : Int}
    (h : IsLeftmostValid initBoard { pieceO with y := 18 } x0) : x0 = 0 := by
  have hz := leftmost_is_zero
  rcases lt_trichotomy x0 0 with hlt | heq | hgt
  · exact absurd h.1 (hz.2 x0 hlt)
  · exact heq
  · exact absurd hz.1 (h.2 0 hgt)

/-- C9 (amended): from a running game on the empty 10 × 20 board with the O piece at its
centred spawn origin `(4, 0)`, three calls `movePiece(-1, 0)` followed by `hardDrop()` lock
the piece at origin column 1, one column to the right of the leftmost valid origin 0: the
cells of rows 18 and 19 in columns 1 and 2 hold colour id 2, every other cell is empty, the
previous next piece is the new current piece and the game keeps running. -/
theorem scenario_locks_at_column_one (t r1 r2 : Fin SHAPES.length) :
    (scenarioStart t).board = initBoard ∧
      (scenarioStart t).currentPiece =
        some { shape := [[2, 2], [2, 2]], x := 4, y := 0, type := 2 } ∧
      IsLeftmostValid initBoard { pieceO with y := 18 } 0 ∧
      ∃ s1, scenario (2 * ROWS + 1) t r1 r2 = .ok s1 ∧
        (∀ r, r < ROWS → ∀ c, c < COLS →
          cellAt s1.board r c = if (r = 18 ∨ r = 19) ∧ (c = 1 ∨ c = 2) then 2 else 0) ∧
        BoardWF s1.board ∧ s1.currentPiece = some (createPiece t) ∧
        s1.nextPiece = some (createPiece r2) ∧ s1.score = some 36 ∧ s1.gameRunning = true := by
  refine ⟨rfl, rfl, leftmost_is_zero, _, scenario_eval t r1 r2, ?_, ?_, rfl, rfl, rfl, rfl⟩
  · show ∀ r, r < ROWS → ∀ c, c < COLS →
      cellAt scenarioBoard r c = if (r = 18 ∨ r = 19) ∧ (c = 1 ∨ c = 2) then 2 else 0
    decide
  · show BoardWF scenarioBoard
    decide

/-- C9 (as stated, refuted): the scenario does not lock the O piece at the leftmost valid
column.  No origin column `x0` is both the smallest at which the piece fits and the column
where the scenario leaves the four cells of colour id 2. -/
theorem scenario_not_leftmost :
    ¬ ∃ (s1 : State) (x0 : Int),
        scenario (2 * ROWS + 1) ⟨0, by decide⟩ ⟨0, by decide⟩ ⟨0, by decide⟩ = .ok s1 ∧
        IsLeftmostValid initBoard { pieceO with y := 18 } x0 ∧
        ∀ r, r < ROWS → ∀ c, c < COLS →
          cellAt s1.board r c =
            if (r = 18 ∨ r = 19) ∧ ((c : Int) = x0 ∨ (c : Int) = x0 + 1) then 2 else 0 := by
  rintro ⟨s1, x0, hs, hleft, hcells⟩
  have hx := leftmost_unique hleft
  subst hx
  rw [scenario_eval] at hs
  simp only [Except.ok.injEq] at hs
  subst hs
  have h := hcells 19 (by decide) 0 (by decide)
  revert h
  decide

/-! ## Rows cleared by one lock -/

theorem orientations_occupied :
    ∀ sh ∈ orientations, ∃ (y x : Nat) (row : List Nat) (v : Nat),
      sh[y]? = some row ∧ row[x]? = some v ∧ v ≠ 0 := by
  have h : ∀ sh ∈ orientations, ∃ row ∈ sh, ∃ v ∈ row, v ≠ 0 := by decide
  intro sh hsh
  obtain ⟨row, hrow, v, hv, hne⟩ := h sh hsh
  obtain ⟨y, hy⟩ := List.getElem?_of_mem hrow
  obtain ⟨x, hx⟩ := List.getElem?_of_mem hv
  exact ⟨y, x, row, v, hy, hx, hne⟩

theorem placePiece_inv_bound {s : State} (hi : Inv s) (hrun : s.gameRunning = true) :
    ∃ p b1, s.currentPiece = some p ∧ occupiedCount p.shape ≤ 4 ∧
      placePiece s = .ok { s with board := b1 } ∧ b1.countP isFull ≤ 4 ∧
      ∃ pts, lineScores[b1.countP isFull]? = some pts := by
  obtain ⟨p, hp, hor⟩ := hi.cur
  have hcount := orientations_count p.shape hor
  obtain ⟨b1, hb1, _, hc1⟩ := placePiece_ok hi.base.wf hp (hi.free hrun p hp)
  have hk : b1.countP isFull ≤ 4 := by
    have := hi.base.noFull
    omega
  refine ⟨p, b1, hp, hcount, hb1, hk, ?_⟩
  have : b1.countP isFull = 0 ∨ b1.countP isFull = 1 ∨ b1.countP isFull = 2 ∨
      b1.countP isFull = 3 ∨ b1.countP isFull = 4 := by omega
  rcases this with h | h | h | h | h <;> rw [h] <;> exact ⟨_, rfl⟩

theorem gravityTick_total {s : State} (hi : Inv s) {fuel : Nat} (hfuel : 2 * ROWS + 1 ≤ fuel)
    (r1 r2 : Fin SHAPES.length) : ∃ s1, gravityTick fuel s r1 r2 = .ok s1 := by
  unfold gravityTick
  by_cases hrun : s.gameRunning = true
  · have hg : ¬ ((!s.gameRunning) = true) := by simp [hrun]
    rw [if_neg hg]
    obtain ⟨p, hp, _⟩ := hi.cur
    obtain ⟨s2, hs2, _⟩ := lockPiece_total hi hrun hfuel r1 r2
    by_cases hpause : s.gamePaused = true
    · have hm : movePiece s 0 1 = .ok (s, none) := by
        simp [movePiece, hp, hrun, hpause]
      rw [hm]
      exact ⟨s2, hs2⟩
    · have hpause : s.gamePaused = false := by simpa using hpause
      rcases collide_ok_of_wf hi.base.wf p 0 1 with hc | hc
      · rw [(movePiece_down hrun hpause hp).2 hc]
        exact ⟨s2, hs2⟩
      · rw [(movePiece_down hrun hpause hp).1 hc]
        exact ⟨_, rfl⟩
  · have hg : (!s.gameRunning) = true := by simpa using hrun
    rw [if_pos hg]
    exact ⟨s, rfl⟩

theorem hardDrop_total {s : State} (hi : Inv s) {p : Piece} (hp : s.currentPiece = some p)
    {fuel : Nat} (hfuel : 2 * ROWS + 1 ≤ fuel) (hfuel2 : ((ROWS : Int) - p.y).toNat ≤ fuel)
    (r1 r2 : Fin SHAPES.length) : ∃ s1, hardDrop fuel s r1 r2 = .ok s1 := by
  unfold hardDrop
  by_cases hg : (s.currentPiece.isNone || !s.gameRunning || s.gamePaused) = true
  · rw [if_pos hg]
    exact ⟨s, rfl⟩
  · rw [if_neg hg]
    have hrun : s.gameRunning = true := by
      cases hr : s.gameRunning with
      | true => rfl
      | false => simp [hr] at hg
    have hpause : s.gamePaused = false := by
      rcases Bool.eq_false_or_eq_true s.gamePaused with hr | hr
      · rw [hr] at hg; simp at hg
      · exact hr
    obtain ⟨q, hq, hor⟩ := hi.cur
    rw [hp] at hq
    cases hq
    obtain ⟨d, hfalse, htrue, hbound⟩ :=
      drop_distance_exists hi.base.wf (orientations_occupied p.shape hor) (hi.free hrun p hp)
    have hloop := dropLoop_exact d fuel s p 0 hi.base.wf hrun hpause hp hfalse htrue (by omega)
    obtain ⟨hi2, _, hr2, _⟩ := dropLoop_inv fuel s _ 0 _ hi hloop
    rw [hloop]
    simp only []
    obtain ⟨s2, hs2, _⟩ := lockPiece_total (inv_score_update hi2 (fun sc => sc + (0 + d) * 2))
      (hr2.trans hrun) hfuel r1 r2
    exact ⟨s2, hs2⟩

/-- C10: in every state reachable from `startGame` the board holds no full row, the score
is a natural number, and the current piece has at most 4 occupied cells; while the game
runs, `placePiece` writes inside the board and leaves at most 4 full rows, so the index into
`lineScores` is within `0..4`.  Every gravity tick and every hard drop returns, adds at
most 4 to `lines`, and leaves the score a natural number. -/
theorem lock_clears_at_most_four (s : State) (h : Reachable s) :
    s.board.countP isFull = 0 ∧ (∃ n : Nat, s.score = some n) ∧
      (∃ p, s.currentPiece = some p ∧ occupiedCount p.shape ≤ 4) ∧
      (s.gameRunning = true →
        ∃ b1, placePiece s = .ok { s with board := b1 } ∧ b1.countP isFull ≤ 4 ∧
          ∃ pts, lineScores[b1.countP isFull]? = some pts) ∧
      (∀ (fuel : Nat) (r1 r2 : Fin SHAPES.length), 2 * ROWS + 1 ≤ fuel →
        ∃ s1, gravityTick fuel s r1 r2 = .ok s1 ∧ s.lines ≤ s1.lines ∧
          s1.lines ≤ s.lines + 4 ∧ ∃ n : Nat, s1.score = some n) ∧
      (∀ (fuel : Nat) (r1 r2 : Fin SHAPES.length) (p : Piece), s.currentPiece = some p →
        2 * ROWS + 1 ≤ fuel → ((ROWS : Int) - p.y).toNat ≤ fuel →
        ∃ s1, hardDrop fuel s r1 r2 = .ok s1 ∧ s.lines ≤ s1.lines ∧
          s1.lines ≤ s.lines + 4 ∧ ∃ n : Nat, s1.score = some n) := by
  have hi := reachable_inv h
  refine ⟨hi.base.noFull, hi.base.score, ?_, ?_, ?_, ?_⟩
  · obtain ⟨p, hp, hor⟩ := hi.cur
    exact ⟨p, hp, orientations_count p.shape hor⟩
  · intro hrun
    obtain ⟨_, b1, _, _, h1, h2, h3⟩ := placePiece_inv_bound hi hrun
    exact ⟨b1, h1, h2, h3⟩
  · intro fuel r1 r2 hfuel
    obtain ⟨s1, hs1⟩ := gravityTick_total hi hfuel r1 r2
    obtain ⟨hi1, ha, hb⟩ := gravityTick_inv hi hs1
    exact ⟨s1, hs1, ha, hb, hi1.base.score⟩
  · intro fuel r1 r2 p hp hfuel hfuel2
    obtain ⟨s1, hs1⟩ := hardDrop_total hi hp hfuel hfuel2 r1 r2
    obtain ⟨hi1, ha, hb⟩ := hardDrop_inv hi hs1
    exact ⟨s1, hs1, ha, hb, hi1.base.score⟩

theorem lock_clears_at_most_four_witness :
    Reachable startedState ∧ startedState.board.countP isFull = 0 ∧
      (∃ n : Nat, startedState.score = some n) ∧
      ∃ s1, hardDrop 41 startedState ⟨2, by decide⟩ ⟨3, by decide⟩ = .ok s1 ∧
        startedState.lines ≤ s1.lines ∧ s1.lines ≤ startedState.lines + 4 ∧
        ∃ n : Nat, s1.score = some n :=
  ⟨Reachable.start idleState startedState ⟨1, by decide⟩ ⟨1, by decide⟩ ⟨0, by decide⟩
      (by decide),
    (lock_clears_at_most_four startedState
      (Reachable.start idleState startedState ⟨1, by decide⟩ ⟨1, by decide⟩ ⟨0, by decide⟩
        (by decide))).1,
    (lock_clears_at_most_four startedState
      (Reachable.start idleState startedState ⟨1, by decide⟩ ⟨1, by decide⟩ ⟨0, by decide⟩
        (by decide))).2.1,
    (lock_clears_at_most_four startedState
      (Reachable.start idleState startedState ⟨1, by decide⟩ ⟨1, by decide⟩ ⟨0, by decide⟩
        (by decide))).2.2.2.2.2 41 ⟨2, by decide⟩ ⟨3, by decide⟩ pieceO rfl (by decide)
      (by decide)⟩

/-! ## The running piece fits -/

theorem cells_inside_of_free {board : Board} (hwf : BoardWF board) {p : Piece}
    (hfree : collide board p 0 0 = .ok false) (y x : Nat) (row : List Nat) (v : Nat)
    (h1 : p.shape[y]? = some row) (h2 : row[x]? = some v) (h3 : v ≠ 0) :
    0 ≤ p.x + x ∧ p.x + x < COLS ∧ p.y + y < ROWS ∧
      (0 ≤ p.y + y → readCell board (p.y + y) (p.x + x) = .ok 0) := by
  have hnb := (collide_false_iff hwf p 0 0).mp hfree
  have hb : ¬ Blocked board (p.x + x) (p.y + y) := by
    intro hbl
    apply hnb
    refine ⟨y, x, row, v, h1, h2, h3, ?_⟩
    simpa using hbl
  have hx0 : 0 ≤ p.x + x := by
    by_contra hc; exact hb (Or.inl (by omega))
  have hx1 : p.x + x < COLS := by
    by_contra hc; exact hb (Or.inr (Or.inl (by omega)))
  have hy1 : p.y + y < ROWS := by
    by_contra hc; exact hb (Or.inr (Or.inr (Or.inl (by omega))))
  refine ⟨hx0, hx1, hy1, ?_⟩
  intro hy0
  obtain ⟨w, hw, hiff⟩ := blocked_iff_of_inside hwf hx0 hx1 hy0 hy1
  have hw0 : w = 0 := by
    by_contra hne
    exact hb (hiff.mpr hne)
  rw [hw, hw0]

/-- C11: in every state reachable from `startGame` by any sequence of moves, rotations,
hard drops, gravity ticks, pauses and restarts in which the game is running, the current
piece does not collide with the board: every occupied cell lies in a column of `[0, COLS)`
and on a row below `ROWS`, and, when its row is not negative, on an empty board cell.
`placePiece` then writes only inside the board, in that state and after any drop that does
not collide, and every gravity tick and hard drop from that state returns. -/
theorem running_piece_fits (s : State) (h : Reachable s) (hrun : s.gameRunning = true) :
    ∃ p, s.currentPiece = some p ∧ collide s.board p 0 0 = .ok false ∧
      (∀ (y x : Nat) (row : List Nat) (v : Nat), p.shape[y]? = some row → row[x]? = some v →
        v ≠ 0 →
        0 ≤ p.x + x ∧ p.x + x < COLS ∧ p.y + y < ROWS ∧
          (0 ≤ p.y + y → readCell s.board (p.y + y) (p.x + x) = .ok 0)) ∧
      (∃ b1, placePiece s = .ok { s with board := b1 } ∧ BoardWF b1) ∧
      (∀ d : Nat, collide s.board p 0 d = .ok false →
        ∃ b1, placePiece { s with currentPiece := some { p with y := p.y + d } } =
            .ok { s with currentPiece := some { p with y := p.y + d }, board := b1 } ∧
          BoardWF b1) ∧
      (∀ (fuel : Nat) (r1 r2 : Fin SHAPES.length), 2 * ROWS + 1 ≤ fuel →
        ∃ s1, gravityTick fuel s r1 r2 = .ok s1) ∧
      (∀ (fuel : Nat) (r1 r2 : Fin SHAPES.length), 2 * ROWS + 1 ≤ fuel →
        ((ROWS : Int) - p.y).toNat ≤ fuel → ∃ s1, hardDrop fuel s r1 r2 = .ok s1) := by
  have hi := reachable_inv h
  obtain ⟨p, hp, _⟩ := hi.cur
  have hfree := hi.free hrun p hp
  refine ⟨p, hp, hfree, ?_, ?_, ?_, ?_, ?_⟩
  · intro y x row v h1 h2 h3
    exact cells_inside_of_free hi.base.wf hfree y x row v h1 h2 h3
  · obtain ⟨b1, hb1, hwf1, _⟩ := placePiece_ok hi.base.wf hp hfree
    exact ⟨b1, hb1, hwf1⟩
  · intro d hd
    have hfree_d : collide s.board { p with y := p.y + d } 0 0 = .ok false := by
      have hm := collide_moved hi.base.wf p 0 d 0 0
      simp only [add_zero, zero_add] at hm
      rw [hm]
      exact hd
    obtain ⟨b1, hb1, hwf1, _⟩ := placePiece_ok
      (s := { s with currentPiece := some { p with y := p.y + d } })
      hi.base.wf (show _ = some { p with y := p.y + d } from rfl) hfree_d
    exact ⟨b1, hb1, hwf1⟩
  · intro fuel r1 r2 hfuel
    exact gravityTick_total hi hfuel r1 r2
  · intro fuel r1 r2 hfuel hfuel2
    exact hardDrop_total hi hp hfuel hfuel2 r1 r2

theorem running_piece_fits_witness :
    Reachable startedState ∧ startedState.gameRunning = true ∧
      ∃ p, startedState.currentPiece = some p ∧ collide startedState.board p 0 0 = .ok false ∧
        ∃ b1, placePiece startedState = .ok { startedState with board := b1 } ∧ BoardWF b1 :=
  ⟨Reachable.start idleState startedState ⟨1, by decide⟩ ⟨1, by decide⟩ ⟨0, by decide⟩
      (by decide),
    rfl,
    (running_piece_fits startedState
      (Reachable.start idleState startedState ⟨1, by decide⟩ ⟨1, by decide⟩ ⟨0, by decide⟩
        (by decide)) rfl).elim fun p hp => ⟨p, hp.1, hp.2.1, hp.2.2.2.1⟩⟩

end Tetris
